import Mathlib

/-!
Verification of the pocket repository's ingestion gateway, funnel state
machine, worker supervisor reconciliation and access endpoints.

The definitions below are a shallow embedding of the Python source:
`app/http/routers/postback.py` (`handle_postback`, `norm_event`),
`app/http/routers/access.py` (`miniapp_access`),
`app/bots/child/bot_instance.py` (`render_get`, `get_deposit_total`),
`app/bots/child/runner.py` (`manager_loop` reconciliation cycle) and the
data model of `app/models.py`.  The database is modelled as lists of rows;
SQLAlchemy `first()` queries become `List.find?`, aggregate sums become
sums over `List.filter`, and Python truthiness of optional strings is made
explicit.
-/

namespace Pocket

/-- `TenantStatus` enum from `app/models.py`. -/
inductive TenantStatus
  | active | paused | deleted
deriving DecidableEq

/-- `UserStep` enum from `app/models.py`. -/
inductive UserStep
  | new | asked_reg | registered | asked_deposit | deposited
deriving DecidableEq

/-- `tenants` table row (fields read by the modelled code). -/
structure Tenant where
  id : Int
  owner_tg_id : Int
  status : TenantStatus
  postback_secret : String
deriving DecidableEq

/-- `tenant_configs` table row (columns of `models.py` plus the
`vip_threshold` column added by `scripts/add_vip_columns.py`). -/
structure TenantConfig where
  tenant_id : Int
  require_deposit : Bool
  min_deposit : Int
  require_subscription : Bool
  vip_threshold : Int
deriving DecidableEq

/-- `users` table row (fields read by the modelled code; `vip_notified`
is the column added by `scripts/add_vip_columns.py`). -/
structure User where
  tenant_id : Int
  tg_user_id : Option Int
  step : UserStep
  click_id : Option String
  trader_id : Option String
  vip_notified : Bool
deriving DecidableEq

/-- `postbacks` table row (the event ledger). -/
structure Postback where
  tenant_id : Int
  event : String
  click_id : Option String
  trader_id : Option String
  sum : Int
  token_ok : Bool
deriving DecidableEq

/-- The relational store: one list of rows per table. -/
structure DB where
  tenants : List Tenant
  configs : List TenantConfig
  users : List User
  postbacks : List Postback
deriving DecidableEq

/-- The fields of `app/settings.py` read by the postback handler. -/
structure Settings where
  tenant_secret_mode : String
  global_postback_secret : String
deriving DecidableEq

/-- Query parameters of `GET /pb` after the numeric parsing at the top of
`handle_postback` (`tenant_id` and `sum` already converted to integers). -/
structure PbParams where
  tenant_id : Int
  event : Option String
  t : Option String
  click_id : Option String
  trader_id : Option String
  sum : Int
deriving DecidableEq

/-- Outcome of one `/pb` request: 404, 403, duplicate no-op, or success. -/
inductive PbResult
  | tenantNotFound | forbidden | okDup | ok
deriving DecidableEq

/-- Python truthiness of an optional string (`if click_id:`). -/
def pyTruthy : Option String → Bool
  | none => false
  | some s => !s.isEmpty

/-- Python `str(x)` for an optional string: `str(None) = "None"`. -/
def pyStr : Option String → String
  | none => "None"
  | some s => s

/-- Python `str.isdigit()` restricted to ASCII digits. -/
def pyIsDigit (s : String) : Bool := !s.isEmpty && s.data.all Char.isDigit

/-- Python `int(s)` on a string of digits. -/
def pyInt (s : String) : Int :=
  Int.ofNat (s.data.foldl (fun a c => a * 10 + (c.toNat - 48)) 0)

/-- ASCII lowercase of a string (Python `str.lower()` on ASCII input). -/
def pyLower (s : String) : String := ⟨s.data.map Char.toLower⟩

/-- `norm_event` from `postback.py`: lowercase and map synonyms. -/
def norm_event (raw : Option String) : String :=
  let r := pyLower (raw.getD "")
  if r == "reg" || r == "registration" || r == "signup" || r == "sign_up" then
    "registration"
  else if r == "dep" || r == "deposit" || r == "payment" then
    "deposit"
  else r

/-- `db.query(Tenant).filter(Tenant.id == tenant_id).first()`. -/
def findTenant (db : DB) (tid : Int) : Option Tenant :=
  db.tenants.find? (fun t => t.id == tid)

/-- The secret check of `handle_postback` (lines 52-58): per-tenant secret
when `tenant_secret_mode == "enabled"` (empty secret never matches),
otherwise the global secret. -/
def tokenOk (st : Settings) (t : Tenant) (token : Option String) : Bool :=
  if st.tenant_secret_mode == "enabled" then
    (!t.postback_secret.isEmpty) && token == some t.postback_secret
  else
    token == some st.global_postback_secret

/-- Predicate of the dedup query (lines 66-72): same tenant, event kind,
click id and amount among verified rows. -/
def dupPred (tid : Int) (ev : String) (click : Option String) (s : Int)
    (pb : Postback) : Bool :=
  pb.tenant_id == tid && pb.event == ev && pb.click_id == click &&
    pb.sum == s && pb.token_ok

/-- Whether a verified event with the same idempotency key already exists. -/
def dupExists (db : DB) (tid : Int) (ev : String) (click : Option String)
    (s : Int) : Bool :=
  (db.postbacks.find? (dupPred tid ev click s)).isSome

/-- Predicate of the deposit-total query (lines 127-132): verified deposit
rows of the tenant whose stored `click_id` equals `str(click_id)`. -/
def depPred (tid : Int) (clickStr : String) (pb : Postback) : Bool :=
  pb.tenant_id == tid && pb.event == "deposit" &&
    pb.click_id == some clickStr && pb.token_ok

/-- `func.coalesce(func.sum(Postback.sum), 0)` over `depPred` rows; this is
also `get_deposit_total` of `bot_instance.py` up to the choice of key. -/
def depTotal (db : DB) (tid : Int) (clickStr : String) : Int :=
  ((db.postbacks.filter (depPred tid clickStr)).map Postback.sum).sum

/-- Default config created lazily by `handle_postback` (line 83), with the
database defaults for the two columns it does not set. -/
def defaultCfg (tid : Int) : TenantConfig :=
  { tenant_id := tid, require_deposit := true, min_deposit := 50
  , require_subscription := false, vip_threshold := 500 }

/-- Fetch-or-create of the tenant config (lines 81-84). -/
def getCfg (db : DB) (tid : Int) : TenantConfig × DB :=
  match db.configs.find? (fun c => c.tenant_id == tid) with
  | some c => (c, db)
  | none => (defaultCfg tid, { db with configs := db.configs ++ [defaultCfg tid] })

/-- User lookup by telegram id (line 89). -/
def userMatchTg (tid : Int) (n : Int) (u : User) : Bool :=
  u.tenant_id == tid && u.tg_user_id == some n

/-- User lookup by stored click id (line 91). -/
def userMatchClick (tid : Int) (c : String) (u : User) : Bool :=
  u.tenant_id == tid && u.click_id == some c

/-- User lookup by stored trader id (line 93). -/
def userMatchTrader (tid : Int) (tr : String) (u : User) : Bool :=
  u.tenant_id == tid && u.trader_id == some tr

/-- The three-stage user resolution of lines 86-93, returning the index of
the first matching row. -/
def resolveUser (db : DB) (tid : Int) (click trader : Option String) :
    Option Nat :=
  let s1 : Option Nat :=
    if pyTruthy click && pyIsDigit (pyStr click) then
      db.users.findIdx? (userMatchTg tid (pyInt (pyStr click)))
    else none
  match s1 with
  | some i => some i
  | none =>
    let s2 : Option Nat :=
      if pyTruthy click then db.users.findIdx? (userMatchClick tid (pyStr click))
      else none
    match s2 with
    | some i => some i
    | none =>
      if pyTruthy trader then db.users.findIdx? (userMatchTrader tid (pyStr trader))
      else none

/-- Replace the `i`-th row of a user list by `f` of it. -/
def modifyAt (l : List User) (i : Nat) (f : User → User) : List User :=
  match l, i with
  | [], _ => []
  | u :: us, 0 => f u :: us
  | u :: us, Nat.succ j => u :: modifyAt us j f

/-- The ledger row inserted by `handle_postback`. -/
def mkRow (tid : Int) (ev : String) (click trader : Option String) (s : Int)
    (ok : Bool) : Postback :=
  { tenant_id := tid, event := ev, click_id := click, trader_id := trader
  , sum := s, token_ok := ok }

/-- The `User(...)` constructor calls of lines 99-106 and 135-142. -/
def newUserFromEvent (tid : Int) (click trader : Option String)
    (st : UserStep) : User :=
  { tenant_id := tid
  , tg_user_id :=
      if pyTruthy click && pyIsDigit (pyStr click) then some (pyInt (pyStr click))
      else none
  , step := st
  , click_id := click
  , trader_id := trader
  , vip_notified := false }

/-- `if click_id: user.click_id = click_id` and likewise for `trader_id`. -/
def updateIds (click trader : Option String) (u : User) : User :=
  let u := if pyTruthy click then { u with click_id := click } else u
  if pyTruthy trader then { u with trader_id := trader } else u

/-- The per-row update of the registration branch (lines 110-122): set
`registered`, refresh the correlation keys, then upgrade to `deposited`
when no deposit is required. -/
def updUserReg (cfg : TenantConfig) (click trader : Option String)
    (v : User) : User :=
  let v := { v with step := UserStep.registered }
  let v := updateIds click trader v
  if !cfg.require_deposit && v.step != UserStep.deposited then
    { v with step := UserStep.deposited }
  else v

/-- The registration branch of `handle_postback` (lines 97-122), including
the `require_deposit == false` upgrade to `deposited`. -/
def applyRegistration (db : DB) (cfg : TenantConfig) (tid : Int)
    (click trader : Option String) : DB :=
  match resolveUser db tid click trader with
  | none =>
    let u := newUserFromEvent tid click trader UserStep.registered
    let u :=
      if !cfg.require_deposit && u.step != UserStep.deposited then
        { u with step := UserStep.deposited }
      else u
    { db with users := db.users ++ [u] }
  | some i =>
    match db.users[i]? with
    | none => db
    | some u =>
      if u.step == UserStep.new || u.step == UserStep.asked_reg ||
          u.step == UserStep.asked_deposit then
        { db with users := modifyAt db.users i (updUserReg cfg click trader) }
      else db

/-- The per-row update of the deposit branch (lines 150-158), at
accumulated total `total`: threshold decides the step, then the
correlation keys are refreshed. -/
def updUserDep (cfg : TenantConfig) (click trader : Option String)
    (total : Int) (v : User) : User :=
  let v :=
    { v with step :=
        if cfg.min_deposit ≤ total then UserStep.deposited
        else UserStep.asked_deposit }
  updateIds click trader v

/-- The deposit branch of `handle_postback` (lines 125-159). -/
def applyDeposit (db : DB) (cfg : TenantConfig) (tid : Int)
    (click trader : Option String) : DB :=
  let total := depTotal db tid (pyStr click)
  match resolveUser db tid click trader with
  | none =>
    let u := newUserFromEvent tid click trader
      (if cfg.min_deposit ≤ total then UserStep.deposited
       else UserStep.asked_deposit)
    { db with users := db.users ++ [u] }
  | some i =>
    match db.users[i]? with
    | none => db
    | some u =>
      if u.step == UserStep.deposited then db
      else
        { db with users := modifyAt db.users i (updUserDep cfg click trader total) }

/-- `handle_postback` of `postback.py`: resolve tenant, authenticate (the
event is recorded unverified and the request rejected on mismatch),
deduplicate, persist, then run the funnel update for the event kind. -/
def handle_postback (st : Settings) (db : DB) (p : PbParams) :
    PbResult × DB :=
  let tid := p.tenant_id
  let ev := norm_event p.event
  match findTenant db tid with
  | none => (PbResult.tenantNotFound, db)
  | some t =>
    if !tokenOk st t p.t then
      (PbResult.forbidden,
        { db with postbacks :=
            db.postbacks ++ [mkRow tid ev p.click_id p.trader_id p.sum false] })
    else if dupExists db tid ev p.click_id p.sum then
      (PbResult.okDup, db)
    else
      let db1 :=
        { db with postbacks :=
            db.postbacks ++ [mkRow tid ev p.click_id p.trader_id p.sum true] }
      match getCfg db1 tid with
      | (cfg, db2) =>
        if ev == "registration" then
          (PbResult.ok, applyRegistration db2 cfg tid p.click_id p.trader_id)
        else if ev == "deposit" then
          (PbResult.ok, applyDeposit db2 cfg tid p.click_id p.trader_id)
        else
          (PbResult.ok, db2)

/-- `miniapp_access` of `access.py`: grants access only when a matching
user exists and its step is `deposited`. -/
def miniapp_access (db : DB) (tid uid : Int) : Bool :=
  match db.users.find? (fun u => u.tenant_id == tid && u.tg_user_id == some uid) with
  | none => false
  | some u => u.step == UserStep.deposited

/-! ### Replaying one user's event history

To state the history-level claims we replay lists of verified conversion
events of a single user through `handle_postback`, starting from a store
holding one tenant and its config. -/

/-- A conversion event of the affiliate network: kind plus amount (the
amount also enters the idempotency key for registrations). -/
inductive Ev
  | reg (amt : Int) | dep (amt : Int)
deriving DecidableEq

/-- The `event` query parameter sent for an event. -/
def Ev.evName : Ev → String
  | .reg _ => "registration"
  | .dep _ => "deposit"

/-- The `sum` query parameter sent for an event. -/
def Ev.amt : Ev → Int
  | .reg a => a
  | .dep a => a

/-- The fixed tenant of the replay scenarios. -/
def T1 : Tenant :=
  { id := 1, owner_tg_id := 77, status := TenantStatus.active
  , postback_secret := "sek" }

/-- Settings with per-tenant secrets enabled. -/
def ST : Settings :=
  { tenant_secret_mode := "enabled", global_postback_secret := "g" }

/-- Tenant config with the given `require_deposit` / `min_deposit`. -/
def cfg0 (rd : Bool) (m : Int) : TenantConfig :=
  { tenant_id := 1, require_deposit := rd, min_deposit := m
  , require_subscription := false, vip_threshold := 500 }

/-- Initial store: one tenant, its config, no users, empty ledger. -/
def db0 (rd : Bool) (m : Int) : DB :=
  { tenants := [T1], configs := [cfg0 rd m], users := [], postbacks := [] }

/-- The `/pb` request carrying event `e` for click id `c` with the valid
per-tenant token. -/
def evParams (c : String) (e : Ev) : PbParams :=
  { tenant_id := 1, event := some e.evName, t := some "sek"
  , click_id := some c, trader_id := none, sum := e.amt }

/-- Sequentially feed a list of requests to `handle_postback`. -/
def replay (st : Settings) (db : DB) (ps : List PbParams) : DB :=
  ps.foldl (fun d p => (handle_postback st d p).2) db

/-- Replay the events of one user (click id `c`) from the initial store. -/
def replayEv (rd : Bool) (m : Int) (c : String) (l : List Ev) : DB :=
  replay ST (db0 rd m) (l.map (evParams c))

/-- The ledger row that ingesting event `e` appends. -/
def evRow (c : String) (e : Ev) : Postback :=
  { tenant_id := 1, event := e.evName, click_id := some c
  , trader_id := none, sum := e.amt, token_ok := true }

/-- The single user row produced by the replay, at step `s`. -/
def canonUser (c : String) (s : UserStep) : User :=
  { tenant_id := 1, tg_user_id := some (pyInt c), step := s
  , click_id := some c, trader_id := none, vip_notified := false }

/-- Effect of a registration event on the user's step (lines 97-122):
upgradeable steps become `registered`, or directly `deposited` when the
config does not require a deposit; `registered` and `deposited` persist. -/
def regStep (rd : Bool) : Option UserStep → UserStep
  | none => if rd then UserStep.registered else UserStep.deposited
  | some s =>
    if s = UserStep.new ∨ s = UserStep.asked_reg ∨ s = UserStep.asked_deposit then
      (if rd then UserStep.registered else UserStep.deposited)
    else s

/-- Effect of a deposit event given the accumulated total `t` (lines
125-159): `deposited` persists, otherwise the threshold decides. -/
def depStep (m : Int) (t : Int) : Option UserStep → UserStep
  | none => if m ≤ t then UserStep.deposited else UserStep.asked_deposit
  | some s =>
    if s = UserStep.deposited then UserStep.deposited
    else if m ≤ t then UserStep.deposited else UserStep.asked_deposit

/-- One step of the funnel fold: the state is the user's step (if any user
row exists yet) and the running verified deposit total. -/
def stepF (rd : Bool) (m : Int) : Option UserStep × Int → Ev → Option UserStep × Int
  | (s, tot), .reg _ => (some (regStep rd s), tot)
  | (s, tot), .dep a => (some (depStep m (tot + a) s), tot + a)

/-- Fold a whole event history into step and deposit total. -/
def foldEv (rd : Bool) (m : Int) (l : List Ev) : Option UserStep × Int :=
  l.foldl (stepF rd m) (none, 0)

/-- The canonical store after replaying history `l`. -/
def canonDB (rd : Bool) (m : Int) (c : String) (l : List Ev) : DB :=
  { tenants := [T1], configs := [cfg0 rd m]
  , users :=
      match (foldEv rd m l).1 with
      | none => []
      | some s => [canonUser c s]
  , postbacks := l.map (evRow c) }

/-- The step of the replay's user row, if one exists. -/
def finalStep (db : DB) : Option UserStep :=
  db.users.head?.map User.step

/-! ### Simulation: the replay reaches exactly the canonical store -/

/-- Sum of the deposit amounts of a history. -/
def depSum : List Ev → Int
  | [] => 0
  | Ev.reg _ :: l => depSum l
  | Ev.dep a :: l => a + depSum l

lemma depSum_append (l₁ l₂ : List Ev) :
    depSum (l₁ ++ l₂) = depSum l₁ + depSum l₂ := by
  induction l₁ with
  | nil => simp [depSum]
  | cons e l ih => cases e <;> simp [depSum, ih] <;> ring

lemma foldEv_append (rd : Bool) (m : Int) (l : List Ev) (e : Ev) :
    foldEv rd m (l ++ [e]) = stepF rd m (foldEv rd m l) e := by
  simp [foldEv, List.foldl_append]

lemma foldEv_snd_aux (rd : Bool) (m : Int) (l : List Ev)
    (s : Option UserStep) (t : Int) :
    (l.foldl (stepF rd m) (s, t)).2 = t + depSum l := by
  induction l generalizing s t with
  | nil => simp [depSum]
  | cons e l ih => cases e <;> simp [stepF, depSum, ih] <;> ring

lemma foldEv_snd (rd : Bool) (m : Int) (l : List Ev) :
    (foldEv rd m l).2 = depSum l := by
  simpa using foldEv_snd_aux rd m l none 0

lemma pyIsDigit_ne_empty {c : String} (hc : pyIsDigit c = true) :
    c.isEmpty = false := by
  by_cases h : c.isEmpty = true
  · simp [pyIsDigit, h] at hc
  · simp_all

lemma dupPred_evRow (c : String) (e e' : Ev) :
    dupPred 1 e.evName (some c) e.amt (evRow c e') = true ↔ e' = e := by
  cases e <;> cases e' <;>
    simp [dupPred, evRow, Ev.evName, Ev.amt] <;>
    exact eq_comm

lemma find_dup_map (c : String) (e : Ev) (l : List Ev) :
    (List.find? (dupPred 1 e.evName (some c) e.amt) (l.map (evRow c))).isSome
      = true ↔ e ∈ l := by
  induction l with
  | nil => simp
  | cons e' l ih =>
    rw [List.map_cons]
    by_cases h : e' = e
    · rw [List.find?_cons_of_pos _ ((dupPred_evRow c e e').mpr h)]
      simp [h]
    · rw [List.find?_cons_of_neg _ (by simp [dupPred_evRow c e e', h])]
      rw [ih]
      constructor
      · exact fun hm => List.mem_cons_of_mem _ hm
      · intro hm
        rcases List.mem_cons.mp hm with h1 | h1
        · exact absurd h1.symm h
        · exact h1

lemma dup_canon (rd : Bool) (m : Int) (c : String) (l : List Ev) (e : Ev) :
    dupExists (canonDB rd m c l) 1 e.evName (some c) e.amt = true ↔ e ∈ l := by
  simpa [dupExists, canonDB] using find_dup_map c e l

lemma depPred_evRow_reg (c : String) (a : Int) :
    depPred 1 c (evRow c (Ev.reg a)) = false := by
  simp [depPred, evRow, Ev.evName]

lemma depPred_evRow_dep (c : String) (a : Int) :
    depPred 1 c (evRow c (Ev.dep a)) = true := by
  simp [depPred, evRow, Ev.evName]

lemma depTotal_rows_aux (c : String) (l : List Ev) :
    ((List.filter (depPred 1 c) (l.map (evRow c))).map Postback.sum).sum
      = depSum l := by
  induction l with
  | nil => simp [depSum]
  | cons e l ih =>
    cases e with
    | reg a =>
      rw [List.map_cons, List.filter_cons]
      simp only [depPred_evRow_reg, Bool.false_eq_true, if_false]
      simpa [depSum] using ih
    | dep a =>
      rw [List.map_cons, List.filter_cons]
      simp only [depPred_evRow_dep, if_true]
      simp only [List.map_cons, List.sum_cons, depSum, evRow, Ev.amt]
      rw [ih]

lemma depTotal_rows (c : String) (l : List Ev) (db : DB)
    (h : db.postbacks = l.map (evRow c)) : depTotal db 1 c = depSum l := by
  unfold depTotal
  rw [h, depTotal_rows_aux]

lemma resolveUser_nil (db : DB) (h : db.users = []) (tid : Int)
    (click trader : Option String) : resolveUser db tid click trader = none := by
  simp [resolveUser, h]

lemma pyTruthy_digit {c : String} (hc : pyIsDigit c = true) :
    pyTruthy (some c) = true := by
  simp [pyTruthy, pyIsDigit_ne_empty hc]

lemma resolveUser_single (c : String) (hc : pyIsDigit c = true) (s : UserStep)
    (db : DB) (h : db.users = [canonUser c s]) (trader : Option String) :
    resolveUser db 1 (some c) trader = some 0 := by
  have h2 : pyIsDigit (pyStr (some c)) = true := by simpa [pyStr] using hc
  simp [resolveUser, h, pyTruthy_digit hc, h2, hc, userMatchTg, canonUser, pyStr]

lemma getCfg_canon (rd : Bool) (m : Int) (db : DB)
    (h : db.configs = [cfg0 rd m]) : getCfg db 1 = (cfg0 rd m, db) := by
  unfold getCfg
  rw [h, List.find?_cons_of_pos _ (by simp [cfg0])]

lemma findTenant_canon (db : DB) (h : db.tenants = [T1]) :
    findTenant db 1 = some T1 := by
  unfold findTenant
  rw [h, List.find?_cons_of_pos _ (by simp [T1])]

lemma tokenOk_ST : tokenOk ST T1 (some "sek") = true := rfl

lemma norm_evName (e : Ev) : norm_event (some e.evName) = e.evName := by
  cases e <;> rfl

lemma mkRow_evRow (c : String) (e : Ev) :
    mkRow 1 e.evName (some c) none e.amt true = evRow c e := by
  cases e <;> rfl

lemma newUser_canon (c : String) (hc : pyIsDigit c = true) (s : UserStep) :
    newUserFromEvent 1 (some c) none s = canonUser c s := by
  have h2 : pyIsDigit (pyStr (some c)) = true := by simpa [pyStr] using hc
  simp [newUserFromEvent, canonUser, pyTruthy_digit hc, h2, hc, pyStr]

lemma rows_append (c : String) (l : List Ev) (e : Ev) :
    l.map (evRow c) ++ [evRow c e] = (l ++ [e]).map (evRow c) := by
  simp

lemma updateIds_canon (c : String) (u : User) (h : u.click_id = some c) :
    updateIds (some c) none u = u := by
  have hn : pyTruthy none = false := rfl
  simp only [updateIds, hn, Bool.false_eq_true, if_false]
  split
  · cases u
    simp_all
  · rfl

lemma stepF_reg (rd : Bool) (m : Int) (p : Option UserStep × Int) (a : Int) :
    stepF rd m p (Ev.reg a) = (some (regStep rd p.1), p.2) := rfl

lemma stepF_dep (rd : Bool) (m : Int) (p : Option UserStep × Int) (a : Int) :
    stepF rd m p (Ev.dep a) = (some (depStep m (p.2 + a) p.1), p.2 + a) := rfl

lemma applyReg_canon (rd : Bool) (m : Int) (c : String)
    (hc : pyIsDigit c = true) (l : List Ev) (a : Int) (db : DB)
    (hten : db.tenants = [T1]) (hcfg : db.configs = [cfg0 rd m])
    (hu : db.users = (canonDB rd m c l).users)
    (hpb : db.postbacks = (l ++ [Ev.reg a]).map (evRow c)) :
    applyRegistration db (cfg0 rd m) 1 (some c) none
      = canonDB rd m c (l ++ [Ev.reg a]) := by
  have hfold : foldEv rd m (l ++ [Ev.reg a])
      = (some (regStep rd (foldEv rd m l).1), (foldEv rd m l).2) := by
    rw [foldEv_append, stepF_reg]
  have hne : (UserStep.registered != UserStep.deposited) = true := rfl
  obtain ⟨dbt, dbc, dbu, dbp⟩ := db
  dsimp only at hten hcfg hu hpb
  subst hten
  subst hcfg
  subst hpb
  cases hf : (foldEv rd m l).1 with
  | none =>
    have husers : dbu = [] := by rw [hu]; simp [canonDB, hf]
    subst husers
    unfold applyRegistration
    rw [resolveUser_nil _ rfl, newUser_canon c hc]
    simp only [canonDB, hfold, hf, hne, cfg0, Bool.and_true,
      List.nil_append, regStep]
    cases rd <;> simp [canonUser]
  | some s =>
    have husers : dbu = [canonUser c s] := by rw [hu]; simp [canonDB, hf]
    subst husers
    unfold applyRegistration
    rw [resolveUser_single c hc s _ rfl none]
    simp only [List.getElem?_cons_zero]
    simp only [canonDB, hfold, hf, cfg0, regStep]
    cases s <;> cases rd <;>
      simp [canonUser, modifyAt, updUserReg, updateIds_canon, hne,
        Bool.and_true, cfg0, regStep]

lemma applyDep_canon (rd : Bool) (m : Int) (c : String)
    (hc : pyIsDigit c = true) (l : List Ev) (a : Int) (db : DB)
    (hten : db.tenants = [T1]) (hcfg : db.configs = [cfg0 rd m])
    (hu : db.users = (canonDB rd m c l).users)
    (hpb : db.postbacks = (l ++ [Ev.dep a]).map (evRow c)) :
    applyDeposit db (cfg0 rd m) 1 (some c) none
      = canonDB rd m c (l ++ [Ev.dep a]) := by
  have hfold : foldEv rd m (l ++ [Ev.dep a])
      = (some (depStep m ((foldEv rd m l).2 + a) (foldEv rd m l).1),
         (foldEv rd m l).2 + a) := by
    rw [foldEv_append, stepF_dep]
  obtain ⟨dbt, dbc, dbu, dbp⟩ := db
  dsimp only at hten hcfg hu hpb
  subst hten
  subst hcfg
  subst hpb
  have htot : depTotal ⟨[T1], [cfg0 rd m], dbu, (l ++ [Ev.dep a]).map (evRow c)⟩
      1 (pyStr (some c)) = depSum l + a := by
    rw [show pyStr (some c) = c from rfl,
        depTotal_rows c (l ++ [Ev.dep a]) _ rfl, depSum_append]
    simp [depSum]
  cases hf : (foldEv rd m l).1 with
  | none =>
    have husers : dbu = [] := by rw [hu]; simp [canonDB, hf]
    subst husers
    unfold applyDeposit
    rw [resolveUser_nil _ rfl]
    simp only [htot, newUser_canon c hc, canonDB, hfold, hf, foldEv_snd,
      List.nil_append, depStep]
    simp only [cfg0]
  | some s =>
    have husers : dbu = [canonUser c s] := by rw [hu]; simp [canonDB, hf]
    subst husers
    unfold applyDeposit
    rw [resolveUser_single c hc s _ rfl none]
    simp only [List.getElem?_cons_zero]
    simp only [canonDB, hfold, hf, foldEv_snd, htot, depStep]
    cases s <;>
      simp [canonUser, modifyAt, updUserDep, updateIds_canon, cfg0]

/-- Whether a history contains a registration event. -/
def hasReg : List Ev → Bool
  | [] => false
  | Ev.reg _ :: _ => true
  | Ev.dep _ :: l => hasReg l

/-- Whether a history contains a deposit event. -/
def hasDep : List Ev → Bool
  | [] => false
  | Ev.dep _ :: _ => true
  | Ev.reg _ :: l => hasDep l

lemma depSum_perm {l₁ l₂ : List Ev} (h : l₁.Perm l₂) :
    depSum l₁ = depSum l₂ := by
  induction h with
  | nil => rfl
  | cons e _ ih => cases e <;> simp [depSum, ih]
  | swap e₁ e₂ _ => cases e₁ <;> cases e₂ <;> simp [depSum] <;> ring
  | trans _ _ ih₁ ih₂ => exact ih₁.trans ih₂

lemma hasReg_iff (l : List Ev) : hasReg l = true ↔ ∃ a, Ev.reg a ∈ l := by
  induction l with
  | nil => simp [hasReg]
  | cons e l ih =>
    cases e with
    | reg a =>
      simp only [hasReg, true_iff]
      exact ⟨a, by simp⟩
    | dep a =>
      simp only [hasReg, ih]
      constructor
      · rintro ⟨b, hb⟩; exact ⟨b, by simp [hb]⟩
      · rintro ⟨b, hb⟩
        rcases List.mem_cons.mp hb with h' | h'
        · cases h'
        · exact ⟨b, h'⟩

lemma hasDep_iff (l : List Ev) : hasDep l = true ↔ ∃ a, Ev.dep a ∈ l := by
  induction l with
  | nil => simp [hasDep]
  | cons e l ih =>
    cases e with
    | dep a =>
      simp only [hasDep, true_iff]
      exact ⟨a, by simp⟩
    | reg a =>
      simp only [hasDep, ih]
      constructor
      · rintro ⟨b, hb⟩; exact ⟨b, by simp [hb]⟩
      · rintro ⟨b, hb⟩
        rcases List.mem_cons.mp hb with h' | h'
        · cases h'
        · exact ⟨b, h'⟩

lemma hasReg_perm {l₁ l₂ : List Ev} (h : l₁.Perm l₂) :
    hasReg l₁ = hasReg l₂ := by
  by_cases h1 : hasReg l₁ = true
  · rw [h1]
    obtain ⟨a, ha⟩ := (hasReg_iff l₁).mp h1
    exact ((hasReg_iff l₂).mpr ⟨a, h.mem_iff.mp ha⟩).symm
  · have h2 : ¬ hasReg l₂ = true := fun hcon => by
      obtain ⟨a, ha⟩ := (hasReg_iff l₂).mp hcon
      exact h1 ((hasReg_iff l₁).mpr ⟨a, h.mem_iff.mpr ha⟩)
    simp only [Bool.not_eq_true] at h1 h2
    rw [h1, h2]

lemma hasDep_perm {l₁ l₂ : List Ev} (h : l₁.Perm l₂) :
    hasDep l₁ = hasDep l₂ := by
  by_cases h1 : hasDep l₁ = true
  · rw [h1]
    obtain ⟨a, ha⟩ := (hasDep_iff l₁).mp h1
    exact ((hasDep_iff l₂).mpr ⟨a, h.mem_iff.mp ha⟩).symm
  · have h2 : ¬ hasDep l₂ = true := fun hcon => by
      obtain ⟨a, ha⟩ := (hasDep_iff l₂).mp hcon
      exact h1 ((hasDep_iff l₁).mpr ⟨a, h.mem_iff.mpr ha⟩)
    simp only [Bool.not_eq_true] at h1 h2
    rw [h1, h2]

lemma depSum_nonneg {l : List Ev} (h : ∀ e ∈ l, 0 ≤ e.amt) : 0 ≤ depSum l := by
  induction l with
  | nil => simp [depSum]
  | cons e l ih =>
    have h0 := h e (by simp)
    have ht : ∀ e ∈ l, 0 ≤ e.amt := fun x hx => h x (by simp [hx])
    cases e with
    | reg a => simpa [depSum] using ih ht
    | dep a =>
      simp only [depSum, Ev.amt] at h0 ⊢
      have := ih ht
      omega

lemma depSum_of_no_dep {l : List Ev} (h : hasDep l = false) : depSum l = 0 := by
  induction l with
  | nil => rfl
  | cons e l ih =>
    cases e with
    | reg a => simpa [depSum, hasDep] using ih (by simpa [hasDep] using h)
    | dep a => simp [hasDep] at h

lemma regStep_dep_iff_true (s : Option UserStep) :
    regStep true s = UserStep.deposited ↔ s = some UserStep.deposited := by
  rcases s with _ | s
  · simp [regStep]
  · cases s <;> simp [regStep]

lemma regStep_false_dep (s : Option UserStep)
    (hs : s ≠ some UserStep.new ∧ s ≠ some UserStep.asked_reg ∧
      s ≠ some UserStep.registered) :
    regStep false s = UserStep.deposited := by
  rcases s with _ | s
  · simp [regStep]
  · cases s <;> simp_all [regStep]

lemma depStep_dep_iff (m t : Int) (s : Option UserStep) :
    depStep m t s = UserStep.deposited ↔
      (s = some UserStep.deposited ∨ m ≤ t) := by
  rcases s with _ | s
  · by_cases h : m ≤ t <;> simp [depStep, h]
  · cases s <;> by_cases h : m ≤ t <;> simp [depStep, h]

lemma depStep_vals (m t : Int) (s : Option UserStep) :
    depStep m t s = UserStep.deposited ∨ depStep m t s = UserStep.asked_deposit := by
  rcases s with _ | s
  · by_cases h : m ≤ t <;> simp [depStep, h]
  · cases s <;> by_cases h : m ≤ t <;> simp [depStep, h]

lemma foldl_dep_iff (rd : Bool) (m : Int) (l : List Ev) :
    ∀ (s : Option UserStep) (tot : Int),
      (∀ e ∈ l, 0 ≤ e.amt) →
      (rd = false → s ≠ some UserStep.new ∧ s ≠ some UserStep.asked_reg ∧
        s ≠ some UserStep.registered) →
      (((l.foldl (stepF rd m) (s, tot)).1 = some UserStep.deposited) ↔
        (s = some UserStep.deposited ∨
         (hasDep l = true ∧ m ≤ tot + depSum l) ∨
         (hasReg l = true ∧ rd = false))) := by
  induction l with
  | nil =>
    intro s tot _ _
    simp [hasDep, hasReg, depSum]
  | cons e l ih =>
    intro s tot hnn hs
    have hnn' : ∀ x ∈ l, 0 ≤ x.amt := fun x hx => hnn x (by simp [hx])
    cases e with
    | reg a =>
      have hs' : rd = false → some (regStep rd s) ≠ some UserStep.new ∧
          some (regStep rd s) ≠ some UserStep.asked_reg ∧
          some (regStep rd s) ≠ some UserStep.registered := by
        intro hrd
        subst hrd
        have hd := regStep_false_dep s (hs rfl)
        simp [hd]
      have ihh := ih (some (regStep rd s)) tot hnn' hs'
      rw [List.foldl_cons,
        show stepF rd m (s, tot) (Ev.reg a) = (some (regStep rd s), tot) from rfl,
        ihh]
      cases rd with
      | true =>
        simp only [hasDep, hasReg, depSum, Option.some.injEq,
          regStep_dep_iff_true]
        constructor
        · rintro (h | ⟨hd, hh⟩ | ⟨_, hfa⟩)
          · exact Or.inl h
          · exact Or.inr (Or.inl ⟨hd, hh⟩)
          · cases hfa
        · rintro (h | ⟨hd, hh⟩ | ⟨_, hfa⟩)
          · exact Or.inl h
          · exact Or.inr (Or.inl ⟨hd, hh⟩)
          · cases hfa
      | false =>
        have hdep := regStep_false_dep s (hs rfl)
        simp [hasReg, hdep]
    | dep a =>
      have hs' : rd = false → some (depStep m (tot + a) s) ≠ some UserStep.new ∧
          some (depStep m (tot + a) s) ≠ some UserStep.asked_reg ∧
          some (depStep m (tot + a) s) ≠ some UserStep.registered := by
        intro _
        rcases depStep_vals m (tot + a) s with hv | hv <;> simp [hv]
      have ihh := ih (some (depStep m (tot + a) s)) (tot + a) hnn' hs'
      rw [List.foldl_cons,
        show stepF rd m (s, tot) (Ev.dep a) =
          (some (depStep m (tot + a) s), tot + a) from rfl,
        ihh]
      have hS : 0 ≤ depSum l := depSum_nonneg hnn'
      simp only [hasDep, hasReg, depSum, Option.some.injEq, depStep_dep_iff,
        eq_self_iff_true, true_and]
      constructor
      · rintro ((h | h) | ⟨hd, hh⟩ | hC)
        · exact Or.inl h
        · exact Or.inr (Or.inl (by omega))
        · exact Or.inr (Or.inl (by omega))
        · exact Or.inr (Or.inr hC)
      · rintro (h | h | hC)
        · exact Or.inl (Or.inl h)
        · by_cases hd : hasDep l = true
          · exact Or.inr (Or.inl ⟨hd, by omega⟩)
          · have h0 : depSum l = 0 :=
              depSum_of_no_dep (by simpa using hd)
            exact Or.inl (Or.inr (by omega))
        · exact Or.inr (Or.inr hC)

lemma foldEv_dep_iff (rd : Bool) (m : Int) (l : List Ev)
    (hnn : ∀ e ∈ l, 0 ≤ e.amt) :
    ((foldEv rd m l).1 = some UserStep.deposited) ↔
      ((hasDep l = true ∧ m ≤ depSum l) ∨ (hasReg l = true ∧ rd = false)) := by
  have h := foldl_dep_iff rd m l none 0 hnn (by intro _; exact ⟨by simp, by simp, by simp⟩)
  simpa [foldEv] using h

/-- One verified, non-duplicate event moves the canonical store one fold
step forward. -/
lemma hp_canon (rd : Bool) (m : Int) (c : String) (hc : pyIsDigit c = true)
    (l : List Ev) (e : Ev) (he : e ∉ l) :
    handle_postback ST (canonDB rd m c l) (evParams c e) =
      (PbResult.ok, canonDB rd m c (l ++ [e])) := by
  have hdup : dupExists (canonDB rd m c l) 1 e.evName (some c) e.amt = false := by
    rw [Bool.eq_false_iff]
    intro hcon
    exact he ((dup_canon rd m c l e).mp hcon)
  have hten : findTenant (canonDB rd m c l) 1 = some T1 := findTenant_canon _ rfl
  cases e with
  | reg a =>
    have hnorm : norm_event (some "registration") = "registration" := rfl
    have hrow : mkRow 1 "registration" (some c) none a true = evRow c (Ev.reg a) := rfl
    simp only [Ev.evName, Ev.amt] at hdup
    simp only [handle_postback, evParams, Ev.evName, Ev.amt]
    rw [hnorm, hten]
    simp only [tokenOk_ST, Bool.not_true, Bool.false_eq_true, if_false, hdup, hrow]
    rw [getCfg_canon rd m _ (by simp [canonDB])]
    simp only [beq_self_eq_true, if_true, if_pos rfl]
    exact congrArg (Prod.mk PbResult.ok)
      (applyReg_canon rd m c hc l a _ rfl rfl rfl (rows_append c l (Ev.reg a)))
  | dep a =>
    have hnorm : norm_event (some "deposit") = "deposit" := rfl
    have hrow : mkRow 1 "deposit" (some c) none a true = evRow c (Ev.dep a) := rfl
    have hnr : (("deposit" : String) == "registration") = false := rfl
    simp only [Ev.evName, Ev.amt] at hdup
    simp only [handle_postback, evParams, Ev.evName, Ev.amt]
    rw [hnorm, hten]
    simp only [tokenOk_ST, Bool.not_true, Bool.false_eq_true, if_false, hdup, hrow]
    rw [getCfg_canon rd m _ (by simp [canonDB])]
    simp only [hnr, Bool.false_eq_true, if_false, beq_self_eq_true, if_true,
      if_pos rfl]
    exact congrArg (Prod.mk PbResult.ok)
      (applyDep_canon rd m c hc l a _ rfl rfl rfl (rows_append c l (Ev.dep a)))

/-- Simulation: replaying a duplicate-free history of one user through
`handle_postback` produces exactly the canonical store. -/
theorem replay_canon (rd : Bool) (m : Int) (c : String)
    (hc : pyIsDigit c = true) (l : List Ev) (hl : l.Nodup) :
    replayEv rd m c l = canonDB rd m c l := by
  induction l using List.reverseRecOn with
  | nil => rfl
  | append_singleton l e ih =>
    obtain ⟨h1, _, h3⟩ := List.nodup_append.mp hl
    have he : e ∉ l := fun hmem => h3 hmem (by simp)
    have hstep : replayEv rd m c (l ++ [e])
        = (handle_postback ST (replayEv rd m c l) (evParams c e)).2 := by
      simp [replayEv, replay, List.foldl_append]
    rw [hstep, ih h1, hp_canon rd m c hc l e he]

/-- The step stored for the replay's single user. -/
lemma finalStep_canon (rd : Bool) (m : Int) (c : String) (l : List Ev) :
    finalStep (canonDB rd m c l) = (foldEv rd m l).1 := by
  cases hf : (foldEv rd m l).1 <;>
    simp [finalStep, canonDB, canonUser, hf]

/-- Read a ledger row back as the conversion event it records. -/
def rowToEv (pb : Postback) : Ev :=
  if pb.event == "deposit" then Ev.dep pb.sum else Ev.reg pb.sum

/-- The event list recorded in a store's ledger. -/
def ledgerEvents (db : DB) : List Ev :=
  db.postbacks.map rowToEv

lemma ledgerEvents_canon (rd : Bool) (m : Int) (c : String) (l : List Ev) :
    ledgerEvents (canonDB rd m c l) = l := by
  show (l.map (evRow c)).map rowToEv = l
  rw [List.map_map]
  have hid : ∀ e : Ev, rowToEv (evRow c e) = e := by
    intro e; cases e <;> rfl
  calc (l.map (rowToEv ∘ evRow c)) = l.map id := by
        apply List.map_congr_left
        intro e _
        exact hid e
    _ = l := List.map_id l

/-! ### Step traces, for counting threshold transitions -/

/-- The stores visited while feeding requests one at a time. -/
def replayTrace (st : Settings) : DB → List PbParams → List DB
  | _, [] => []
  | db, p :: ps =>
    (handle_postback st db p).2 :: replayTrace st (handle_postback st db p).2 ps

/-- The canonical stores after each successive event of `rest`, the
history `l` having already been ingested. -/
def canonTraces (rd : Bool) (m : Int) (c : String) :
    List Ev → List Ev → List DB
  | _, [] => []
  | l, e :: rest => canonDB rd m c (l ++ [e]) :: canonTraces rd m c (l ++ [e]) rest

lemma replayTrace_canon (rd : Bool) (m : Int) (c : String)
    (hc : pyIsDigit c = true) :
    ∀ (rest l : List Ev), (l ++ rest).Nodup →
      replayTrace ST (canonDB rd m c l) (rest.map (evParams c))
        = canonTraces rd m c l rest := by
  intro rest
  induction rest with
  | nil => intro l _; rfl
  | cons e rest ih =>
    intro l hnd
    have he : e ∉ l := by
      obtain ⟨_, _, h3⟩ := List.nodup_append.mp hnd
      exact fun hmem => h3 hmem (by simp)
    have h2 : (handle_postback ST (canonDB rd m c l) (evParams c e)).2
        = canonDB rd m c (l ++ [e]) := by
      rw [hp_canon rd m c hc l e he]
    have hnd' : ((l ++ [e]) ++ rest).Nodup := by
      simpa [List.append_assoc] using hnd
    simp only [List.map_cons, replayTrace, h2, canonTraces]
    exact congrArg (List.cons _) (ih (l ++ [e]) hnd')

/-- The states (step plus running total) visited by the funnel fold. -/
def evTrace (rd : Bool) (m : Int) :
    Option UserStep × Int → List Ev → List (Option UserStep)
  | _, [] => []
  | st, e :: l =>
    (stepF rd m st e).1 :: evTrace rd m (stepF rd m st e) l

lemma map_finalStep_canonTraces (rd : Bool) (m : Int) (c : String) :
    ∀ (rest l : List Ev),
      (canonTraces rd m c l rest).map finalStep
        = evTrace rd m (foldEv rd m l) rest := by
  intro rest
  induction rest with
  | nil => intro l; rfl
  | cons e rest ih =>
    intro l
    simp only [canonTraces, List.map_cons, evTrace, finalStep_canon,
      foldEv_append]
    rw [ih (l ++ [e]), foldEv_append]

/-- Number of transitions into the `deposited` step along a trace. -/
def depTransCount : List (Option UserStep) → Nat
  | a :: b :: rest =>
    (if a ≠ some UserStep.deposited ∧ b = some UserStep.deposited then 1 else 0)
      + depTransCount (b :: rest)
  | _ => 0

/-- Whether an event is a deposit. -/
def Ev.isDep : Ev → Bool
  | .dep _ => true
  | .reg _ => false

lemma depStep_of_dep (m t : Int) :
    depStep m t (some UserStep.deposited) = UserStep.deposited := by
  simp [depStep]

lemma depStep_of_pending (m t : Int) (s : Option UserStep)
    (h : s ≠ some UserStep.deposited) :
    depStep m t s = (if m ≤ t then UserStep.deposited else UserStep.asked_deposit) := by
  rcases s with _ | s
  · rfl
  · cases s <;> simp_all [depStep]

lemma count_from_dep (rd : Bool) (m : Int) :
    ∀ (l : List Ev) (st : Option UserStep × Int),
      (∀ e ∈ l, e.isDep = true) → st.1 = some UserStep.deposited →
      depTransCount (st.1 :: evTrace rd m st l) = 0 := by
  intro l
  induction l with
  | nil => intro st _ _; rfl
  | cons e l ih =>
    intro st hdep h1
    cases e with
    | reg a => exact absurd (hdep (Ev.reg a) (by simp)) (by simp [Ev.isDep])
    | dep a =>
      have hd' : ∀ x ∈ l, x.isDep = true := fun x hx => hdep x (by simp [hx])
      have hst' : (stepF rd m st (Ev.dep a)).1 = some UserStep.deposited := by
        rw [stepF_dep]
        simp only [h1, depStep_of_dep]
      have hih := ih (stepF rd m st (Ev.dep a)) hd' hst'
      rw [hst'] at hih
      simp only [evTrace, depTransCount, h1, hst']
      rw [hih]
      simp

lemma count_pending (rd : Bool) (m : Int) :
    ∀ (l : List Ev) (st : Option UserStep × Int),
      (∀ e ∈ l, e.isDep = true) → (∀ e ∈ l, 0 ≤ e.amt) →
      st.1 ≠ some UserStep.deposited → st.2 < m →
      depTransCount (st.1 :: evTrace rd m st l)
        = if m ≤ st.2 + depSum l then 1 else 0 := by
  intro l
  induction l with
  | nil =>
    intro st _ _ _ hlt
    have : ¬ m ≤ st.2 + depSum [] := by simp [depSum]; omega
    simp [evTrace, depTransCount, this]
  | cons e l ih =>
    intro st hdep hnn h1 hlt
    cases e with
    | reg a => exact absurd (hdep (Ev.reg a) (by simp)) (by simp [Ev.isDep])
    | dep a =>
      have hd' : ∀ x ∈ l, x.isDep = true := fun x hx => hdep x (by simp [hx])
      have hn' : ∀ x ∈ l, 0 ≤ x.amt := fun x hx => hnn x (by simp [hx])
      have hS : 0 ≤ depSum l := depSum_nonneg hn'
      have ha : 0 ≤ a := by simpa [Ev.amt] using hnn (Ev.dep a) (by simp)
      have hsum : depSum (Ev.dep a :: l) = a + depSum l := rfl
      by_cases hm : m ≤ st.2 + a
      · have hst' : (stepF rd m st (Ev.dep a)).1 = some UserStep.deposited := by
          rw [stepF_dep]
          simp only [depStep_of_pending m _ _ h1, if_pos hm]
        have hcd := count_from_dep rd m l _ hd' hst'
        rw [hst'] at hcd
        simp only [evTrace, depTransCount, hst']
        rw [hcd]
        have hcond : m ≤ st.2 + depSum (Ev.dep a :: l) := by
          rw [hsum]; omega
        simp [h1, hcond]
      · have hst' : (stepF rd m st (Ev.dep a)).1 = some UserStep.asked_deposit := by
          rw [stepF_dep]
          simp only [depStep_of_pending m _ _ h1, if_neg hm]
        have hst2 : (stepF rd m st (Ev.dep a)).2 = st.2 + a := by rw [stepF_dep]
        have hih := ih (stepF rd m st (Ev.dep a)) hd' hn' (by rw [hst']; simp)
            (by rw [hst2]; omega)
        rw [hst', hst2] at hih
        simp only [evTrace, depTransCount, hst']
        rw [hih, hsum]
        have hiff : (m ≤ st.2 + a + depSum l) ↔ (m ≤ st.2 + (a + depSum l)) := by
          omega
        simp [hiff]

lemma fold_from_dep (rd : Bool) (m : Int) :
    ∀ (l : List Ev) (st : Option UserStep × Int),
      (∀ e ∈ l, e.isDep = true) → st.1 = some UserStep.deposited →
      (l.foldl (stepF rd m) st).1 = some UserStep.deposited := by
  intro l
  induction l with
  | nil => intro st _ h; exact h
  | cons e l ih =>
    intro st hdep h1
    cases e with
    | reg a => exact absurd (hdep (Ev.reg a) (by simp)) (by simp [Ev.isDep])
    | dep a =>
      have hd' : ∀ x ∈ l, x.isDep = true := fun x hx => hdep x (by simp [hx])
      have hst' : (stepF rd m st (Ev.dep a)).1 = some UserStep.deposited := by
        rw [stepF_dep]
        simp only [h1, depStep_of_dep]
      rw [List.foldl_cons]
      exact ih _ hd' hst'

lemma fold_dep_pending (rd : Bool) (m : Int) :
    ∀ (l : List Ev) (st : Option UserStep × Int),
      (∀ e ∈ l, e.isDep = true) → (∀ e ∈ l, 0 ≤ e.amt) →
      st.1 ≠ some UserStep.deposited → st.2 < m →
      (l.foldl (stepF rd m) st).1 =
        (if m ≤ st.2 + depSum l then some UserStep.deposited
         else if l = [] then st.1 else some UserStep.asked_deposit) := by
  intro l
  induction l with
  | nil =>
    intro st _ _ _ hlt
    have : ¬ m ≤ st.2 + depSum [] := by simp [depSum]; omega
    simp [this]
  | cons e l ih =>
    intro st hdep hnn h1 hlt
    cases e with
    | reg a => exact absurd (hdep (Ev.reg a) (by simp)) (by simp [Ev.isDep])
    | dep a =>
      have hd' : ∀ x ∈ l, x.isDep = true := fun x hx => hdep x (by simp [hx])
      have hn' : ∀ x ∈ l, 0 ≤ x.amt := fun x hx => hnn x (by simp [hx])
      have hS : 0 ≤ depSum l := depSum_nonneg hn'
      have hsum : depSum (Ev.dep a :: l) = a + depSum l := rfl
      have hst2 : (stepF rd m st (Ev.dep a)).2 = st.2 + a := by rw [stepF_dep]
      rw [List.foldl_cons]
      by_cases hm : m ≤ st.2 + a
      · have hst' : (stepF rd m st (Ev.dep a)).1 = some UserStep.deposited := by
          rw [stepF_dep]
          simp only [depStep_of_pending m _ _ h1, if_pos hm]
        rw [fold_from_dep rd m l _ hd' hst']
        have hcond : m ≤ st.2 + depSum (Ev.dep a :: l) := by rw [hsum]; omega
        simp [hcond]
      · have hst' : (stepF rd m st (Ev.dep a)).1 = some UserStep.asked_deposit := by
          rw [stepF_dep]
          simp only [depStep_of_pending m _ _ h1, if_neg hm]
        rw [ih (stepF rd m st (Ev.dep a)) hd' hn' (by rw [hst']; simp)
            (by rw [hst2]; omega)]
        rw [hst2, hst', hsum]
        have hiff : (m ≤ st.2 + a + depSum l) ↔ (m ≤ st.2 + (a + depSum l)) := by
          omega
        by_cases hc2 : m ≤ st.2 + (a + depSum l)
        · simp [hc2, hiff.mpr hc2]
        · have : ¬ m ≤ st.2 + a + depSum l := fun hcon => hc2 (hiff.mp hcon)
          simp [hc2, this]

/-! ### Structural lemmas about one ingestion call -/

lemma getCfg_tenants (db : DB) (tid : Int) :
    ((getCfg db tid).2).tenants = db.tenants := by
  unfold getCfg
  split <;> rfl

lemma getCfg_users (db : DB) (tid : Int) :
    ((getCfg db tid).2).users = db.users := by
  unfold getCfg
  split <;> rfl

lemma getCfg_postbacks (db : DB) (tid : Int) :
    ((getCfg db tid).2).postbacks = db.postbacks := by
  unfold getCfg
  split <;> rfl

lemma applyRegistration_postbacks (db : DB) (cfg : TenantConfig) (tid : Int)
    (c tr : Option String) :
    (applyRegistration db cfg tid c tr).postbacks = db.postbacks := by
  unfold applyRegistration
  split
  · rfl
  · split
    · rfl
    · split <;> rfl

lemma applyRegistration_tenants (db : DB) (cfg : TenantConfig) (tid : Int)
    (c tr : Option String) :
    (applyRegistration db cfg tid c tr).tenants = db.tenants := by
  unfold applyRegistration
  split
  · rfl
  · split
    · rfl
    · split <;> rfl

lemma applyDeposit_postbacks (db : DB) (cfg : TenantConfig) (tid : Int)
    (c tr : Option String) :
    (applyDeposit db cfg tid c tr).postbacks = db.postbacks := by
  unfold applyDeposit
  split
  · rfl
  · split
    · rfl
    · split <;> rfl

lemma applyDeposit_tenants (db : DB) (cfg : TenantConfig) (tid : Int)
    (c tr : Option String) :
    (applyDeposit db cfg tid c tr).tenants = db.tenants := by
  unfold applyDeposit
  split
  · rfl
  · split
    · rfl
    · split <;> rfl

/-- On the authenticated, non-duplicate path the call answers `ok`, keeps
the tenant table intact and appends exactly one verified ledger row. -/
lemma hp_ok_shape (st : Settings) (db : DB) (p : PbParams) (t : Tenant)
    (hten : findTenant db p.tenant_id = some t)
    (htok : tokenOk st t p.t = true)
    (hdup : dupExists db p.tenant_id (norm_event p.event) p.click_id p.sum
      = false) :
    (handle_postback st db p).1 = PbResult.ok ∧
    (handle_postback st db p).2.tenants = db.tenants ∧
    (handle_postback st db p).2.postbacks = db.postbacks ++
      [mkRow p.tenant_id (norm_event p.event) p.click_id p.trader_id p.sum true] := by
  simp only [handle_postback]
  rw [hten]
  simp only [htok, Bool.not_true, Bool.false_eq_true, if_false, hdup]
  by_cases hreg : (norm_event p.event == "registration") = true
  · rw [if_pos hreg]
    refine ⟨rfl, ?_, ?_⟩
    · rw [applyRegistration_tenants, getCfg_tenants]
    · rw [applyRegistration_postbacks, getCfg_postbacks]
  · rw [if_neg hreg]
    by_cases hdep : (norm_event p.event == "deposit") = true
    · rw [if_pos hdep]
      refine ⟨rfl, ?_, ?_⟩
      · rw [applyDeposit_tenants, getCfg_tenants]
      · rw [applyDeposit_postbacks, getCfg_postbacks]
    · rw [if_neg hdep]
      exact ⟨rfl, by rw [getCfg_tenants], by rw [getCfg_postbacks]⟩

lemma dupExists_append_self (db : DB) (tid : Int) (ev : String)
    (click trader : Option String) (s : Int) :
    dupExists { db with postbacks :=
        db.postbacks ++ [mkRow tid ev click trader s true] } tid ev click s
      = true := by
  unfold dupExists
  rw [List.find?_append]
  have h2 : List.find? (dupPred tid ev click s) [mkRow tid ev click trader s true]
      = some (mkRow tid ev click trader s true) := by
    apply List.find?_cons_of_pos
    simp [dupPred, mkRow]
  cases h1 : List.find? (dupPred tid ev click s) db.postbacks <;>
    simp [h1, h2, Option.orElse]

/-- On token mismatch the call answers `forbidden` and only appends the
unverified audit row. -/
lemma hp_forbidden_shape (st : Settings) (db : DB) (p : PbParams) (t : Tenant)
    (hten : findTenant db p.tenant_id = some t)
    (htok : tokenOk st t p.t = false) :
    handle_postback st db p = (PbResult.forbidden,
      { db with postbacks := db.postbacks ++
          [mkRow p.tenant_id (norm_event p.event) p.click_id p.trader_id
            p.sum false] }) := by
  simp only [handle_postback]
  rw [hten]
  simp only [htok, Bool.not_false]
  first
    | rw [if_pos rfl]
    | rw [if_pos trivial]

lemma depPred_unverified (tid : Int) (cs : String) (r : Postback)
    (hr : r.token_ok = false) : depPred tid cs r = false := by
  simp [depPred, hr]

lemma dupPred_unverified (tid : Int) (ev : String) (click : Option String)
    (s : Int) (r : Postback) (hr : r.token_ok = false) :
    dupPred tid ev click s r = false := by
  simp [dupPred, hr]

lemma depTotal_append_unverified (db : DB) (tid : Int) (cs : String)
    (r : Postback) (hr : r.token_ok = false) :
    depTotal { db with postbacks := db.postbacks ++ [r] } tid cs
      = depTotal db tid cs := by
  unfold depTotal
  show ((List.filter _ (db.postbacks ++ [r])).map _).sum = _
  rw [List.filter_append]
  simp [depPred_unverified tid cs r hr]

lemma dupExists_append_unverified (db : DB) (tid : Int) (ev : String)
    (click : Option String) (s : Int) (r : Postback)
    (hr : r.token_ok = false) :
    dupExists { db with postbacks := db.postbacks ++ [r] } tid ev click s
      = dupExists db tid ev click s := by
  unfold dupExists
  show (List.find? _ (db.postbacks ++ [r])).isSome = _
  rw [List.find?_append]
  have h2 : List.find? (dupPred tid ev click s) [r] = none := by
    simp [List.find?, dupPred_unverified tid ev click s r hr]
  rw [h2]
  cases h1 : List.find? (dupPred tid ev click s) db.postbacks <;>
    simp [Option.orElse]

/-- `resolveUser` restated on a bare user list. -/
def resolveUserL (users : List User) (tid : Int) (click trader : Option String) :
    Option Nat :=
  let s1 : Option Nat :=
    if pyTruthy click && pyIsDigit (pyStr click) then
      users.findIdx? (userMatchTg tid (pyInt (pyStr click)))
    else none
  match s1 with
  | some i => some i
  | none =>
    let s2 : Option Nat :=
      if pyTruthy click then users.findIdx? (userMatchClick tid (pyStr click))
      else none
    match s2 with
    | some i => some i
    | none =>
      if pyTruthy trader then users.findIdx? (userMatchTrader tid (pyStr trader))
      else none

lemma resolveUser_eq (db : DB) (tid : Int) (c tr : Option String) :
    resolveUser db tid c tr = resolveUserL db.users tid c tr := rfl

/-- The user-table effect of the registration branch. -/
def regUsersF (cfg : TenantConfig) (tid : Int) (click trader : Option String)
    (users : List User) : List User :=
  match resolveUserL users tid click trader with
  | none =>
    let u := newUserFromEvent tid click trader UserStep.registered
    let u :=
      if !cfg.require_deposit && u.step != UserStep.deposited then
        { u with step := UserStep.deposited }
      else u
    users ++ [u]
  | some i =>
    match users[i]? with
    | none => users
    | some u =>
      if u.step == UserStep.new || u.step == UserStep.asked_reg ||
          u.step == UserStep.asked_deposit then
        modifyAt users i (updUserReg cfg click trader)
      else users

lemma applyRegistration_eq (db : DB) (cfg : TenantConfig) (tid : Int)
    (c tr : Option String) :
    applyRegistration db cfg tid c tr
      = { db with users := regUsersF cfg tid c tr db.users } := by
  unfold applyRegistration regUsersF
  rw [← resolveUser_eq]
  cases resolveUser db tid c tr with
  | none => rfl
  | some i =>
    dsimp only
    cases db.users[i]? with
    | none => rfl
    | some u =>
      dsimp only
      by_cases hstep : (u.step == UserStep.new || u.step == UserStep.asked_reg
          || u.step == UserStep.asked_deposit) = true
      · rw [if_pos hstep, if_pos hstep]
      · rw [if_neg hstep, if_neg hstep]

/-- The user-table effect of the deposit branch, at accumulated total `total`. -/
def depUsersF (cfg : TenantConfig) (tid : Int) (click trader : Option String)
    (total : Int) (users : List User) : List User :=
  match resolveUserL users tid click trader with
  | none =>
    users ++ [newUserFromEvent tid click trader
      (if cfg.min_deposit ≤ total then UserStep.deposited
       else UserStep.asked_deposit)]
  | some i =>
    match users[i]? with
    | none => users
    | some u =>
      if u.step == UserStep.deposited then users
      else modifyAt users i (updUserDep cfg click trader total)

lemma applyDeposit_eq (db : DB) (cfg : TenantConfig) (tid : Int)
    (c tr : Option String) :
    applyDeposit db cfg tid c tr
      = { db with users :=
            depUsersF cfg tid c tr (depTotal db tid (pyStr c)) db.users } := by
  unfold applyDeposit depUsersF
  rw [← resolveUser_eq]
  cases resolveUser db tid c tr with
  | none => rfl
  | some i =>
    dsimp only
    cases db.users[i]? with
    | none => rfl
    | some u =>
      dsimp only
      by_cases hstep : (u.step == UserStep.deposited) = true
      · rw [if_pos hstep, if_pos hstep]
      · rw [if_neg hstep, if_neg hstep]

lemma applyRegistration_users_congr (db₁ db₂ : DB) (cfg : TenantConfig)
    (tid : Int) (c tr : Option String) (h : db₁.users = db₂.users) :
    (applyRegistration db₁ cfg tid c tr).users
      = (applyRegistration db₂ cfg tid c tr).users := by
  rw [applyRegistration_eq, applyRegistration_eq]
  show regUsersF cfg tid c tr db₁.users = regUsersF cfg tid c tr db₂.users
  rw [h]

lemma applyDeposit_users_congr (db₁ db₂ : DB) (cfg : TenantConfig)
    (tid : Int) (c tr : Option String) (h : db₁.users = db₂.users)
    (hdt : depTotal db₁ tid (pyStr c) = depTotal db₂ tid (pyStr c)) :
    (applyDeposit db₁ cfg tid c tr).users
      = (applyDeposit db₂ cfg tid c tr).users := by
  rw [applyDeposit_eq, applyDeposit_eq]
  show depUsersF cfg tid c tr _ db₁.users = depUsersF cfg tid c tr _ db₂.users
  rw [h, hdt]

/-- Recording one unverified row changes neither the outcome nor the user
table of any later ingestion call. -/
lemma hp_unverified_append (st : Settings) (db : DB) (r : Postback)
    (hr : r.token_ok = false) (q : PbParams) :
    (handle_postback st { db with postbacks := db.postbacks ++ [r] } q).1
        = (handle_postback st db q).1 ∧
    (handle_postback st { db with postbacks := db.postbacks ++ [r] } q).2.users
        = (handle_postback st db q).2.users := by
  simp only [handle_postback]
  have hften : findTenant { db with postbacks := db.postbacks ++ [r] } q.tenant_id
      = findTenant db q.tenant_id := rfl
  rw [hften]
  cases hten : findTenant db q.tenant_id with
  | none => exact ⟨rfl, rfl⟩
  | some t =>
    by_cases htok : tokenOk st t q.t = true
    · simp only [htok, Bool.not_true, Bool.false_eq_true, if_false]
      rw [dupExists_append_unverified db q.tenant_id _ q.click_id q.sum r hr]
      by_cases hdup : dupExists db q.tenant_id (norm_event q.event) q.click_id
          q.sum = true
      · rw [if_pos hdup, if_pos hdup]
        exact ⟨rfl, rfl⟩
      · rw [if_neg hdup, if_neg hdup]
        set row := mkRow q.tenant_id (norm_event q.event) q.click_id
          q.trader_id q.sum true with hrow
        have hcfg : (getCfg { db with postbacks := (db.postbacks ++ [r]) ++ [row] }
            q.tenant_id).1 = (getCfg { db with postbacks := db.postbacks ++ [row] }
            q.tenant_id).1 := by
          unfold getCfg
          cases db.configs.find? (fun cf => cf.tenant_id == q.tenant_id) <;> rfl
        have husers : (getCfg { db with postbacks := (db.postbacks ++ [r]) ++ [row] }
            q.tenant_id).2.users = (getCfg { db with postbacks := db.postbacks ++ [row] }
            q.tenant_id).2.users := by
          rw [getCfg_users, getCfg_users]
        have hdt : ∀ cs, depTotal (getCfg { db with postbacks :=
              (db.postbacks ++ [r]) ++ [row] } q.tenant_id).2 q.tenant_id cs
            = depTotal (getCfg { db with postbacks := db.postbacks ++ [row] }
              q.tenant_id).2 q.tenant_id cs := by
          intro cs
          unfold depTotal
          rw [getCfg_postbacks, getCfg_postbacks]
          show ((List.filter _ ((db.postbacks ++ [r]) ++ [row])).map _).sum
            = ((List.filter _ (db.postbacks ++ [row])).map _).sum
          rw [List.filter_append, List.filter_append, List.filter_append]
          simp [depPred_unverified q.tenant_id cs r hr]
        by_cases hreg : (norm_event q.event == "registration") = true
        · rw [if_pos hreg, if_pos hreg]
          refine ⟨rfl, ?_⟩
          rw [hcfg]
          exact applyRegistration_users_congr _ _ _ _ _ _ husers
        · rw [if_neg hreg, if_neg hreg]
          by_cases hdep : (norm_event q.event == "deposit") = true
          · rw [if_pos hdep, if_pos hdep]
            refine ⟨rfl, ?_⟩
            rw [hcfg]
            exact applyDeposit_users_congr _ _ _ _ _ _ husers (hdt _)
          · rw [if_neg hdep, if_neg hdep]
            exact ⟨rfl, husers⟩
    · have htok' : tokenOk st t q.t = false := by
        simpa using htok
      simp only [htok', Bool.not_false]
      first
        | rw [if_pos rfl, if_pos rfl]
        | rw [if_pos trivial, if_pos trivial]
      exact ⟨rfl, rfl⟩

/-! ### Pointwise behaviour of the user table under one ingestion call -/

lemma modifyAt_getElem? (l : List User) (j : Nat) (f : User → User) (i : Nat) :
    (modifyAt l j f)[i]? = if i = j then (l[i]?).map f else l[i]? := by
  induction l generalizing i j with
  | nil => simp [modifyAt]
  | cons u us ih =>
    cases j with
    | zero =>
      cases i with
      | zero => simp [modifyAt]
      | succ i' => simp [modifyAt]
    | succ j' =>
      cases i with
      | zero => simp [modifyAt]
      | succ i' =>
        simp only [modifyAt, List.getElem?_cons_succ, Nat.succ_eq_add_one,
          Nat.add_right_cancel_iff]
        exact ih j' i'

/-- Position of a step in the funnel's linear order
`New < AskedRegistration < Registered < AskedDeposit < Deposited`. -/
def stepRank : UserStep → Nat
  | .new => 0
  | .asked_reg => 1
  | .registered => 2
  | .asked_deposit => 3
  | .deposited => 4

/-- Relation between a user's step before and after one ingestion call:
the step never decreases, except that a registration event may pull
`asked_deposit` back to `registered`; `deposited` is terminal. -/
def stepOk (a b : UserStep) : Prop :=
  (stepRank a ≤ stepRank b ∨
    (a = UserStep.asked_deposit ∧ b = UserStep.registered)) ∧
  (a = UserStep.deposited → b = UserStep.deposited)

lemma stepOk_refl (a : UserStep) : stepOk a a :=
  ⟨Or.inl le_rfl, fun h => h⟩

lemma updateIds_step (c tr : Option String) (v : User) :
    (updateIds c tr v).step = v.step := by
  unfold updateIds
  split <;> split <;> rfl

lemma updUserReg_step (cfg : TenantConfig) (c tr : Option String) (v : User) :
    (updUserReg cfg c tr v).step = UserStep.registered ∨
    (updUserReg cfg c tr v).step = UserStep.deposited := by
  simp only [updUserReg]
  split
  · exact Or.inr rfl
  · rw [updateIds_step]
    exact Or.inl rfl

lemma updUserDep_step (cfg : TenantConfig) (c tr : Option String)
    (total : Int) (v : User) :
    (updUserDep cfg c tr total v).step =
      (if cfg.min_deposit ≤ total then UserStep.deposited
       else UserStep.asked_deposit) := by
  simp only [updUserDep]
  rw [updateIds_step]

lemma regUsersF_pointwise (cfg : TenantConfig) (tid : Int)
    (c tr : Option String) (users : List User) (i : Nat) (u : User)
    (hu : users[i]? = some u) :
    ∃ u', (regUsersF cfg tid c tr users)[i]? = some u' ∧
      stepOk u.step u'.step := by
  unfold regUsersF
  cases resolveUserL users tid c tr with
  | none =>
    dsimp only
    have hlen : i < users.length := by
      rcases List.getElem?_eq_some.mp hu with ⟨h, _⟩
      exact h
    refine ⟨u, ?_, stepOk_refl u.step⟩
    rw [List.getElem?_append, if_pos hlen]
    exact hu
  | some j =>
    dsimp only
    cases hj : users[j]? with
    | none => exact ⟨u, hu, stepOk_refl u.step⟩
    | some w =>
      dsimp only
      by_cases hstep : (w.step == UserStep.new || w.step == UserStep.asked_reg
          || w.step == UserStep.asked_deposit) = true
      · rw [if_pos hstep]
        by_cases hij : i = j
        · subst hij
          rw [hu] at hj
          injection hj with hw
          subst hw
          refine ⟨updUserReg cfg c tr u,
            by rw [modifyAt_getElem?, if_pos rfl, hu]; rfl, ?_⟩
          have hw3 : u.step = UserStep.new ∨ u.step = UserStep.asked_reg ∨
              u.step = UserStep.asked_deposit := by
            cases hs : u.step <;> simp_all
          rcases updUserReg_step cfg c tr u with h1 | h1 <;>
            rcases hw3 with h2 | h2 | h2 <;>
              simp [stepOk, stepRank, h1, h2]
        · rw [modifyAt_getElem?, if_neg hij]
          exact ⟨u, hu, stepOk_refl u.step⟩
      · rw [if_neg hstep]
        exact ⟨u, hu, stepOk_refl u.step⟩

lemma depUsersF_pointwise (cfg : TenantConfig) (tid : Int)
    (c tr : Option String) (total : Int) (users : List User) (i : Nat)
    (u : User) (hu : users[i]? = some u) :
    ∃ u', (depUsersF cfg tid c tr total users)[i]? = some u' ∧
      stepOk u.step u'.step := by
  unfold depUsersF
  cases resolveUserL users tid c tr with
  | none =>
    dsimp only
    have hlen : i < users.length := by
      rcases List.getElem?_eq_some.mp hu with ⟨h, _⟩
      exact h
    refine ⟨u, ?_, stepOk_refl u.step⟩
    rw [List.getElem?_append, if_pos hlen]
    exact hu
  | some j =>
    dsimp only
    cases hj : users[j]? with
    | none => exact ⟨u, hu, stepOk_refl u.step⟩
    | some w =>
      dsimp only
      by_cases hstep : (w.step == UserStep.deposited) = true
      · rw [if_pos hstep]
        exact ⟨u, hu, stepOk_refl u.step⟩
      · rw [if_neg hstep]
        by_cases hij : i = j
        · subst hij
          rw [hu] at hj
          injection hj with hw
          subst hw
          refine ⟨updUserDep cfg c tr total u,
            by rw [modifyAt_getElem?, if_pos rfl, hu]; rfl, ?_⟩
          have hnd : ¬ u.step = UserStep.deposited := by simp_all
          by_cases hthr : cfg.min_deposit ≤ total
          · have hb : (updUserDep cfg c tr total u).step = UserStep.deposited := by
              rw [updUserDep_step, if_pos hthr]
            cases hs : u.step <;> simp_all [stepOk, stepRank]
          · have hb : (updUserDep cfg c tr total u).step
                = UserStep.asked_deposit := by
              rw [updUserDep_step, if_neg hthr]
            cases hs : u.step <;> simp_all [stepOk, stepRank]
        · rw [modifyAt_getElem?, if_neg hij]
          exact ⟨u, hu, stepOk_refl u.step⟩

/-- Across one ingestion call every pre-existing user row keeps its
position, and its step moves according to `stepOk`. -/
lemma hp_users_pointwise (st : Settings) (db : DB) (p : PbParams) (i : Nat)
    (u : User) (hu : db.users[i]? = some u) :
    ∃ u', (handle_postback st db p).2.users[i]? = some u' ∧
      stepOk u.step u'.step := by
  simp only [handle_postback]
  cases findTenant db p.tenant_id with
  | none => exact ⟨u, hu, stepOk_refl u.step⟩
  | some t =>
    by_cases htok : tokenOk st t p.t = true
    · simp only [htok, Bool.not_true, Bool.false_eq_true, if_false]
      by_cases hdup : dupExists db p.tenant_id (norm_event p.event)
          p.click_id p.sum = true
      · rw [if_pos hdup]
        exact ⟨u, hu, stepOk_refl u.step⟩
      · rw [if_neg hdup]
        set db1 : DB := { db with postbacks := db.postbacks ++
          [mkRow p.tenant_id (norm_event p.event) p.click_id p.trader_id
            p.sum true] } with hdb1
        have husers2 : (getCfg db1 p.tenant_id).2.users = db.users := by
          rw [getCfg_users]
        by_cases hreg : (norm_event p.event == "registration") = true
        · rw [if_pos hreg]
          rw [applyRegistration_eq]
          show ∃ u', (regUsersF _ _ _ _ (getCfg db1 p.tenant_id).2.users)[i]?
            = some u' ∧ _
          rw [husers2]
          exact regUsersF_pointwise _ _ _ _ db.users i u hu
        · rw [if_neg hreg]
          by_cases hdep : (norm_event p.event == "deposit") = true
          · rw [if_pos hdep]
            rw [applyDeposit_eq]
            show ∃ u', (depUsersF _ _ _ _ _ (getCfg db1 p.tenant_id).2.users)[i]?
              = some u' ∧ _
            rw [husers2]
            exact depUsersF_pointwise _ _ _ _ _ db.users i u hu
          · rw [if_neg hdep]
            exact ⟨u, by rw [getCfg_users]; exact hu, stepOk_refl u.step⟩
    · have htok' : tokenOk st t p.t = false := by simpa using htok
      simp only [htok', Bool.not_false]
      first
        | rw [if_pos rfl]
        | rw [if_pos trivial]
      exact ⟨u, hu, stepOk_refl u.step⟩

/-! ### `render_get` of `bot_instance.py` and the access condition -/

/-- The string value of a `UserStep` member (`models.py`: `str`-valued
enum, so Python compares members by these strings). -/
def stepValStr : UserStep → String
  | .new => "new"
  | .asked_reg => "asked_reg"
  | .registered => "registered"
  | .asked_deposit => "asked_deposit"
  | .deposited => "deposited"

/-- Lexicographic strict order on character lists (Python string `<`). -/
def charListLtB : List Char → List Char → Bool
  | _, [] => false
  | [], _ :: _ => true
  | a :: as, b :: bs =>
    if a.toNat < b.toNat then true
    else if b.toNat < a.toNat then false
    else charListLtB as bs

/-- Python string `>=`. -/
def pyStrGe (a b : String) : Bool := !charListLtB a.data b.data

/-- `user.step >= UserStep.registered` of `bot_instance.py` line 383 —
a comparison of the enum members' *string values*. -/
def stepGeRegistered (s : UserStep) : Bool :=
  pyStrGe (stepValStr s) (stepValStr UserStep.registered)

/-- `int(cfg.vip_threshold or 500)` (line 432): Python `or` replaces a
zero threshold by 500. -/
def effVipThreshold (cfg : TenantConfig) : Int :=
  if cfg.vip_threshold == 0 then 500 else cfg.vip_threshold

/-- Which screen `render_get` sends. -/
inductive Screen
  | subscribe | unlocked | step1 | step2
deriving DecidableEq

/-- Observable outcome of `render_get`: the screen, whether the one-shot
VIP notification was sent, and the updated user row. -/
structure RenderResult where
  screen : Screen
  vipFired : Bool
  user : User
deriving DecidableEq

/-- `render_get` of `bot_instance.py` (lines 367-452): subscription gate,
then the access branch (`deposited`, or `registered` when no deposit is
required — which also upgrades the stored step), then step 1 for
new/asked-registration users, else the deposit-progress screen where the
VIP threshold check runs, guarded by the `vip_notified` flag. -/
def render_get (cfg : TenantConfig) (u : User) (dep_total : Int)
    (subscribed : Bool) : RenderResult :=
  if cfg.require_subscription && !subscribed then
    { screen := Screen.subscribe, vipFired := false, user := u }
  else if u.step == UserStep.deposited ||
      (!cfg.require_deposit && stepGeRegistered u.step) then
    let u :=
      if u.step != UserStep.deposited && !cfg.require_deposit then
        { u with step := UserStep.deposited }
      else u
    { screen := Screen.unlocked, vipFired := false, user := u }
  else if u.step == UserStep.new || u.step == UserStep.asked_reg then
    { screen := Screen.step1, vipFired := false
    , user := { u with step := UserStep.asked_reg } }
  else
    let fired := decide (effVipThreshold cfg ≤ dep_total) && !u.vip_notified
    let u := if fired then { u with vip_notified := true } else u
    { screen := Screen.step2, vipFired := fired
    , user := { u with step := UserStep.asked_deposit } }

/-! ### Worker supervisor reconciliation (`runner.py`, `manager_loop`) -/

/-- Auto-pause (lines 86-95): an active tenant whose owner fails the
entitlement check is switched to `paused`. -/
def autoPause (entitled : Int → Bool) (t : Tenant) : Tenant :=
  if t.status == TenantStatus.active && !entitled t.owner_tg_id then
    { t with status := TenantStatus.paused }
  else t

/-- One reconciliation cycle of `manager_loop` (lines 84-112): apply
auto-pause, re-read the active tenants, stop workers whose tenant is no
longer active, start workers for active tenants without one.  Returns the
updated directory and the ids of the running workers. -/
def reconcile (entitled : Int → Bool) (tenants : List Tenant)
    (running : List Int) : List Tenant × List Int :=
  let ts := tenants.map (autoPause entitled)
  let activeIds := (ts.filter (fun t => t.status == TenantStatus.active)).map Tenant.id
  let kept := running.filter (fun i => activeIds.contains i)
  let started := activeIds.filter (fun i => !running.contains i)
  (ts, kept ++ started)

/-! ### Claim theorems -/

/-- C1, counterexample: the histories `[Registration, Deposit 30]` and
`[Deposit 30, Registration]` are permutations of each other, yet replaying
them through `handle_postback` (minDeposit 50) ends at `asked_deposit`
resp. `registered` — the final step is not permutation-invariant, because
a verified registration arriving at `asked_deposit` resets the step to
`registered` while a below-threshold deposit arriving at `registered`
sets `asked_deposit`. -/
theorem C1_counterexample :
    List.Perm [Ev.reg 0, Ev.dep 30] [Ev.dep 30, Ev.reg 0] ∧
    finalStep (replayEv true 50 "7" [Ev.reg 0, Ev.dep 30])
      = some UserStep.asked_deposit ∧
    finalStep (replayEv true 50 "7" [Ev.dep 30, Ev.reg 0])
      = some UserStep.registered ∧
    (UserStep.asked_deposit ≠ UserStep.registered) :=
  ⟨by decide, by decide, by decide, by decide⟩

/-- C1, amended: for every tenant configuration and duplicate-free,
nonnegative event history of one user, a permutation of the history
preserves the final verified-deposit total and whether the final step is
`Deposited` (the access-granting outcome), though not necessarily the
exact step; and replaying the events recorded in the ledger reproduces
the stored state exactly. -/
theorem C1_amended (rd : Bool) (m : Int) (c : String)
    (hc : pyIsDigit c = true) (l₁ l₂ : List Ev) (hperm : l₁.Perm l₂)
    (hnd : l₁.Nodup) (hnn : ∀ e ∈ l₁, 0 ≤ e.amt) :
    depTotal (replayEv rd m c l₁) 1 c = depTotal (replayEv rd m c l₂) 1 c ∧
    ((finalStep (replayEv rd m c l₁) = some UserStep.deposited) ↔
      (finalStep (replayEv rd m c l₂) = some UserStep.deposited)) ∧
    replayEv rd m c (ledgerEvents (replayEv rd m c l₁))
      = replayEv rd m c l₁ := by
  have hnd₂ : l₂.Nodup := hperm.nodup_iff.mp hnd
  have hnn₂ : ∀ e ∈ l₂, 0 ≤ e.amt := fun e he => hnn e (hperm.mem_iff.mpr he)
  have h₁ := replay_canon rd m c hc l₁ hnd
  have h₂ := replay_canon rd m c hc l₂ hnd₂
  refine ⟨?_, ?_, ?_⟩
  · rw [h₁, h₂, depTotal_rows c l₁ _ rfl, depTotal_rows c l₂ _ rfl]
    exact depSum_perm hperm
  · rw [h₁, h₂, finalStep_canon, finalStep_canon,
      foldEv_dep_iff rd m l₁ hnn, foldEv_dep_iff rd m l₂ hnn₂,
      hasDep_perm hperm, hasReg_perm hperm, depSum_perm hperm]
  · rw [h₁, ledgerEvents_canon, h₁]

/-- C1, witness for the amended theorem at a concrete instance. -/
theorem C1_amended_witness :
    depTotal (replayEv true 50 "7" [Ev.reg 0, Ev.dep 30]) 1 "7"
      = depTotal (replayEv true 50 "7" [Ev.dep 30, Ev.reg 0]) 1 "7" ∧
    ((finalStep (replayEv true 50 "7" [Ev.reg 0, Ev.dep 30])
        = some UserStep.deposited) ↔
      (finalStep (replayEv true 50 "7" [Ev.dep 30, Ev.reg 0])
        = some UserStep.deposited)) ∧
    replayEv true 50 "7" (ledgerEvents (replayEv true 50 "7" [Ev.reg 0, Ev.dep 30]))
      = replayEv true 50 "7" [Ev.reg 0, Ev.dep 30] :=
  C1_amended true 50 "7" (by decide) [Ev.reg 0, Ev.dep 30] [Ev.dep 30, Ev.reg 0]
    (by decide) (by decide) (by decide)

/-- C2: on the authenticated, non-duplicate path one call answers `ok`
and appends exactly one verified ledger row; resubmitting the same
(tenantId, eventKind, clickId, amount) with the valid token returns the
duplicate success answer and leaves the store — ledger and user table —
completely unchanged. -/
theorem C2_idempotent (st : Settings) (db : DB) (p : PbParams) (t : Tenant)
    (hten : findTenant db p.tenant_id = some t)
    (htok : tokenOk st t p.t = true)
    (hdup : dupExists db p.tenant_id (norm_event p.event) p.click_id p.sum
      = false) :
    (handle_postback st db p).1 = PbResult.ok ∧
    (handle_postback st db p).2.postbacks = db.postbacks ++
      [mkRow p.tenant_id (norm_event p.event) p.click_id p.trader_id p.sum true] ∧
    handle_postback st (handle_postback st db p).2 p
      = (PbResult.okDup, (handle_postback st db p).2) := by
  obtain ⟨h1, h2, h3⟩ := hp_ok_shape st db p t hten htok hdup
  set db' := (handle_postback st db p).2 with hdb'
  refine ⟨h1, h3, ?_⟩
  have hten' : findTenant db' p.tenant_id = some t := by
    unfold findTenant
    rw [h2]
    exact hten
  have hdup' : dupExists db' p.tenant_id
      (norm_event p.event) p.click_id p.sum = true := by
    have hda := dupExists_append_self db p.tenant_id (norm_event p.event)
      p.click_id p.trader_id p.sum
    unfold dupExists at hda ⊢
    rw [h3]
    exact hda
  simp only [handle_postback]
  rw [hten']
  simp only [htok, Bool.not_true, Bool.false_eq_true, if_false]
  rw [if_pos hdup']

/-- C2, witness: a concrete deposit submitted twice. -/
theorem C2_idempotent_witness :
    (handle_postback ST (db0 true 50) (evParams "7" (Ev.dep 30))).1
      = PbResult.ok ∧
    (handle_postback ST (db0 true 50) (evParams "7" (Ev.dep 30))).2.postbacks
      = (db0 true 50).postbacks ++
        [mkRow (evParams "7" (Ev.dep 30)).tenant_id
          (norm_event (evParams "7" (Ev.dep 30)).event)
          (evParams "7" (Ev.dep 30)).click_id
          (evParams "7" (Ev.dep 30)).trader_id
          (evParams "7" (Ev.dep 30)).sum true] ∧
    handle_postback ST
        (handle_postback ST (db0 true 50) (evParams "7" (Ev.dep 30))).2
        (evParams "7" (Ev.dep 30))
      = (PbResult.okDup,
          (handle_postback ST (db0 true 50) (evParams "7" (Ev.dep 30))).2) :=
  C2_idempotent ST (db0 true 50) (evParams "7" (Ev.dep 30)) T1
    (by decide) (by decide) (by decide)

/-- C3: an ingestion request with a mismatched token is answered
`forbidden`, the event is still recorded with `token_ok = false`, no user
row changes, no deposit total changes, and for every later request —
including a structurally identical, correctly-tokened one — the outcome
and the user table are exactly as if the unverified event had never been
recorded. -/
theorem C3_unauthorized_isolation (st : Settings) (db : DB) (p : PbParams)
    (t : Tenant) (hten : findTenant db p.tenant_id = some t)
    (htok : tokenOk st t p.t = false) :
    (handle_postback st db p).1 = PbResult.forbidden ∧
    (handle_postback st db p).2 = { db with postbacks := db.postbacks ++
      [mkRow p.tenant_id (norm_event p.event) p.click_id p.trader_id
        p.sum false] } ∧
    (handle_postback st db p).2.users = db.users ∧
    (∀ tid cs, depTotal (handle_postback st db p).2 tid cs
      = depTotal db tid cs) ∧
    (∀ q : PbParams,
      (handle_postback st (handle_postback st db p).2 q).1
        = (handle_postback st db q).1 ∧
      (handle_postback st (handle_postback st db p).2 q).2.users
        = (handle_postback st db q).2.users) := by
  have hshape := hp_forbidden_shape st db p t hten htok
  have h2 : (handle_postback st db p).2 = { db with postbacks :=
      db.postbacks ++ [mkRow p.tenant_id (norm_event p.event) p.click_id
        p.trader_id p.sum false] } := by
    rw [hshape]
  refine ⟨by rw [hshape], h2, by rw [h2], ?_, ?_⟩
  · intro tid cs
    rw [h2]
    exact depTotal_append_unverified db tid cs _ rfl
  · intro q
    rw [h2]
    exact hp_unverified_append st db _ rfl q

/-- C3, witness: a concrete deposit with a wrong token, followed by the
correctly-tokened identical event. -/
theorem C3_unauthorized_isolation_witness :
    (handle_postback ST (db0 true 50)
        { tenant_id := 1, event := some "deposit", t := some "bad"
        , click_id := some "7", trader_id := none, sum := 60 }).1
      = PbResult.forbidden ∧
    (handle_postback ST (db0 true 50)
        { tenant_id := 1, event := some "deposit", t := some "bad"
        , click_id := some "7", trader_id := none, sum := 60 }).2
      = { db0 true 50 with postbacks := (db0 true 50).postbacks ++
          [mkRow 1 (norm_event (some "deposit")) (some "7") none 60 false] } ∧
    (handle_postback ST (db0 true 50)
        { tenant_id := 1, event := some "deposit", t := some "bad"
        , click_id := some "7", trader_id := none, sum := 60 }).2.users
      = (db0 true 50).users ∧
    (∀ tid cs, depTotal (handle_postback ST (db0 true 50)
        { tenant_id := 1, event := some "deposit", t := some "bad"
        , click_id := some "7", trader_id := none, sum := 60 }).2 tid cs
      = depTotal (db0 true 50) tid cs) ∧
    (∀ q : PbParams,
      (handle_postback ST (handle_postback ST (db0 true 50)
          { tenant_id := 1, event := some "deposit", t := some "bad"
          , click_id := some "7", trader_id := none, sum := 60 }).2 q).1
        = (handle_postback ST (db0 true 50) q).1 ∧
      (handle_postback ST (handle_postback ST (db0 true 50)
          { tenant_id := 1, event := some "deposit", t := some "bad"
          , click_id := some "7", trader_id := none, sum := 60 }).2 q).2.users
        = (handle_postback ST (db0 true 50) q).2.users) :=
  C3_unauthorized_isolation ST (db0 true 50)
    { tenant_id := 1, event := some "deposit", t := some "bad"
    , click_id := some "7", trader_id := none, sum := 60 } T1
    (by decide) (by decide)

/-- C4: with `min_deposit = 50`, replaying any duplicate-free list of
verified deposit events of one user leaves the user at `asked_deposit`
when the total is below 50 (in particular at 49) and at `deposited` once
the total reaches 50; along the whole replay the transition into
`deposited` happens exactly once when the total reaches the threshold and
never otherwise, however many further deposit events arrive. -/
theorem C4_threshold (c : String) (hc : pyIsDigit c = true) (l : List Ev)
    (hdep : ∀ e ∈ l, e.isDep = true) (hnn : ∀ e ∈ l, 0 ≤ e.amt)
    (hnd : l.Nodup) (hne : l ≠ []) (rd : Bool) :
    finalStep (replayEv rd 50 c l)
      = some (if 50 ≤ depSum l then UserStep.deposited
              else UserStep.asked_deposit) ∧
    depTransCount (finalStep (db0 rd 50) ::
        (replayTrace ST (db0 rd 50) (l.map (evParams c))).map finalStep)
      = (if 50 ≤ depSum l then 1 else 0) := by
  constructor
  · rw [replay_canon rd 50 c hc l hnd, finalStep_canon]
    have hfp := fold_dep_pending rd 50 l (none, 0) hdep hnn (by simp)
      (by norm_num)
    simp only [zero_add, hne, if_false] at hfp
    rw [show foldEv rd 50 l = l.foldl (stepF rd 50) (none, 0) from rfl, hfp]
    by_cases hP : (50 : Int) ≤ depSum l <;> simp [hP]
  · have htr : replayTrace ST (db0 rd 50) (l.map (evParams c))
        = canonTraces rd 50 c [] l :=
      replayTrace_canon rd 50 c hc l [] (by simpa using hnd)
    rw [htr, map_finalStep_canonTraces rd 50 c l []]
    have hcp := count_pending rd 50 l (none, 0) hdep hnn (by simp)
      (by norm_num)
    simpa using hcp

/-- C4, witness: one verified deposit of 49 leaves the user at
`asked_deposit` with no transition into `deposited`. -/
theorem C4_threshold_witness :
    finalStep (replayEv true 50 "7" [Ev.dep 49])
      = some (if 50 ≤ depSum [Ev.dep 49] then UserStep.deposited
              else UserStep.asked_deposit) ∧
    depTransCount (finalStep (db0 true 50) ::
        (replayTrace ST (db0 true 50) ([Ev.dep 49].map (evParams "7"))).map
          finalStep)
      = (if 50 ≤ depSum [Ev.dep 49] then 1 else 0) :=
  C4_threshold "7" (by decide) [Ev.dep 49] (by decide) (by decide)
    (by decide) (by decide) true

/-- C5, counterexample: ingesting `Deposit 30` then `Registration`
(minDeposit 50) moves the user from `asked_deposit` down to `registered`,
strictly decreasing the funnel order — an ingestion operation, not an
administrative reset, lowers the step. -/
theorem C5_counterexample :
    finalStep (replayEv true 50 "7" [Ev.dep 30])
      = some UserStep.asked_deposit ∧
    finalStep (replayEv true 50 "7" [Ev.dep 30, Ev.reg 0])
      = some UserStep.registered ∧
    stepRank UserStep.registered < stepRank UserStep.asked_deposit :=
  ⟨by decide, by decide, by decide⟩

/-- C5, amended: across every ingestion call every existing user row
keeps its position and its step never decreases in the funnel order,
except that a registration event may pull `asked_deposit` back to
`registered`; `deposited` is terminal under ingestion. -/
theorem C5_monotone_amended (st : Settings) (db : DB) (p : PbParams)
    (i : Nat) (u : User) (hu : db.users[i]? = some u) :
    ∃ u', (handle_postback st db p).2.users[i]? = some u' ∧
      (stepRank u.step ≤ stepRank u'.step ∨
        (u.step = UserStep.asked_deposit ∧ u'.step = UserStep.registered)) ∧
      (u.step = UserStep.deposited → u'.step = UserStep.deposited) :=
  hp_users_pointwise st db p i u hu

/-- C5, witness: the deposited user of a replayed history stays
`deposited` under a further registration event. -/
theorem C5_monotone_witness :
    ∃ u', (handle_postback ST (replayEv true 50 "7" [Ev.dep 60])
        (evParams "7" (Ev.reg 0))).2.users[0]? = some u' ∧
      (stepRank (canonUser "7" UserStep.deposited).step ≤ stepRank u'.step ∨
        ((canonUser "7" UserStep.deposited).step = UserStep.asked_deposit ∧
          u'.step = UserStep.registered)) ∧
      ((canonUser "7" UserStep.deposited).step = UserStep.deposited →
        u'.step = UserStep.deposited) :=
  C5_monotone_amended ST (replayEv true 50 "7" [Ev.dep 60])
    (evParams "7" (Ev.reg 0)) 0 (canonUser "7" UserStep.deposited) (by decide)

/-- C6: with tenants A(1): Active, B(2): Paused, C(3): Active and the
owners entitled, one reconciliation cycle runs exactly the workers of A
and C; switching B to Active starts B's worker within the next cycle;
switching A to Deleted stops A's worker within the next cycle. -/
theorem C6_reconciliation :
    (reconcile (fun _ => true)
      [{ id := 1, owner_tg_id := 10, status := TenantStatus.active
       , postback_secret := "" },
       { id := 2, owner_tg_id := 20, status := TenantStatus.paused
       , postback_secret := "" },
       { id := 3, owner_tg_id := 30, status := TenantStatus.active
       , postback_secret := "" }] []).2 = [1, 3] ∧
    (reconcile (fun _ => true)
      [{ id := 1, owner_tg_id := 10, status := TenantStatus.active
       , postback_secret := "" },
       { id := 2, owner_tg_id := 20, status := TenantStatus.active
       , postback_secret := "" },
       { id := 3, owner_tg_id := 30, status := TenantStatus.active
       , postback_secret := "" }] [1, 3]).2 = [1, 3, 2] ∧
    (reconcile (fun _ => true)
      [{ id := 1, owner_tg_id := 10, status := TenantStatus.deleted
       , postback_secret := "" },
       { id := 2, owner_tg_id := 20, status := TenantStatus.active
       , postback_secret := "" },
       { id := 3, owner_tg_id := 30, status := TenantStatus.active
       , postback_secret := "" }] [1, 3, 2]).2 = [3, 2] ∧
    ((1 : Int) ∉ (reconcile (fun _ => true)
      [{ id := 1, owner_tg_id := 10, status := TenantStatus.deleted
       , postback_secret := "" },
       { id := 2, owner_tg_id := 20, status := TenantStatus.active
       , postback_secret := "" },
       { id := 3, owner_tg_id := 30, status := TenantStatus.active
       , postback_secret := "" }] [1, 3, 2]).2) :=
  ⟨by decide, by decide, by decide, by decide⟩

lemma render_vipFired_iff (cfg : TenantConfig) (u : User) (d : Int)
    (sub : Bool) :
    (render_get cfg u d sub).vipFired = true ↔
      (¬ (cfg.require_subscription && !sub) = true ∧
       ¬ (u.step == UserStep.deposited ||
           (!cfg.require_deposit && stepGeRegistered u.step)) = true ∧
       ¬ (u.step == UserStep.new || u.step == UserStep.asked_reg) = true ∧
       effVipThreshold cfg ≤ d ∧ u.vip_notified = false) := by
  unfold render_get
  split_ifs with h1 h2 h3 <;> simp_all

lemma render_flag_mono (cfg : TenantConfig) (u : User) (d : Int)
    (sub : Bool) :
    ((render_get cfg u d sub).user).vip_notified
      = (u.vip_notified || (render_get cfg u d sub).vipFired) := by
  by_cases hf : (decide (effVipThreshold cfg ≤ d) && !u.vip_notified) = true
  · unfold render_get
    split_ifs <;> simp_all
  · unfold render_get
    split_ifs <;> simp_all
    by_cases hle : effVipThreshold cfg ≤ d
    · have hv : u.vip_notified = true := hf hle
      simp [hle, hv]
    · simp [hle]

lemma render_flag_blocks (cfg : TenantConfig) (u : User) (d : Int)
    (sub : Bool) (h : u.vip_notified = true) :
    (render_get cfg u d sub).vipFired = false := by
  unfold render_get
  split_ifs <;> simp_all

/-- C7, counterexample: a user whose step is already `deposited`, with
accumulated deposits 220 over a VIP threshold of 200 and the one-shot
flag unset, does not get the VIP notification: `render_get` takes the
access branch and never evaluates the VIP condition, so the condition is
not evaluated independently of the step. -/
theorem C7_counterexample :
    (canonUser "7" UserStep.deposited).step = UserStep.deposited ∧
    (canonUser "7" UserStep.deposited).vip_notified = false ∧
    effVipThreshold { cfg0 true 100 with vip_threshold := 200 } ≤ 220 ∧
    (render_get { cfg0 true 100 with vip_threshold := 200 }
        (canonUser "7" UserStep.deposited) 220 true).vipFired = false :=
  ⟨rfl, rfl, by decide, by decide⟩

/-- C7, amended: `render_get` fires the VIP notification exactly when the
user reaches the deposit-progress screen (subscription gate passed, no
access yet, past step 1) with accumulated deposits at or above the
effective VIP threshold and the one-shot flag unset; in particular it is
never evaluated once the step is `deposited`, and after it fires once the
flag blocks any further firing. -/
theorem C7_vip_amended (cfg : TenantConfig) (u : User) (d : Int)
    (sub : Bool) :
    ((render_get cfg u d sub).vipFired = true ↔
      (¬ (cfg.require_subscription && !sub) = true ∧
       ¬ (u.step == UserStep.deposited ||
           (!cfg.require_deposit && stepGeRegistered u.step)) = true ∧
       ¬ (u.step == UserStep.new || u.step == UserStep.asked_reg) = true ∧
       effVipThreshold cfg ≤ d ∧ u.vip_notified = false)) ∧
    (u.step = UserStep.deposited →
      (render_get cfg u d sub).vipFired = false) ∧
    ((render_get cfg u d sub).vipFired = true →
      ∀ (cfg' : TenantConfig) (d' : Int) (sub' : Bool),
        (render_get cfg' ((render_get cfg u d sub).user) d' sub').vipFired
          = false) := by
  refine ⟨render_vipFired_iff cfg u d sub, ?_, ?_⟩
  · intro hdep
    rw [Bool.eq_false_iff]
    intro hfired
    have hcond := ((render_vipFired_iff cfg u d sub).mp hfired).2.1
    apply hcond
    simp [hdep]
  · intro hfired cfg' d' sub'
    apply render_flag_blocks
    rw [render_flag_mono, hfired]
    simp

/-- C7, witness for the amended theorem: a pending user over the
threshold fires once, and a second rendering no longer fires. -/
theorem C7_vip_witness :
    (render_get { cfg0 true 100 with vip_threshold := 200 }
        (canonUser "7" UserStep.asked_deposit) 220 true).vipFired = true ∧
    (render_get { cfg0 true 100 with vip_threshold := 200 }
        ((render_get { cfg0 true 100 with vip_threshold := 200 }
          (canonUser "7" UserStep.asked_deposit) 220 true).user) 220
        true).vipFired = false :=
  ⟨by decide,
    (C7_vip_amended { cfg0 true 100 with vip_threshold := 200 }
        (canonUser "7" UserStep.asked_deposit) 220 true).2.2 (by decide)
      { cfg0 true 100 with vip_threshold := 200 } 220 true⟩

/-- C8: when the tenant's config has `require_deposit = false`, ingesting
a verified registration event leaves the user at `deposited`, so the
`miniapp_access` endpoint grants access to that user; and `render_get`
treats a `registered` user exactly as a `deposited` one for access: it
shows the unlocked screen and upgrades the stored step to `deposited`. -/
theorem C8_registered_access (m : Int) (c : String) (hc : pyIsDigit c = true)
    (a : Int) (cfg : TenantConfig) (hrd : cfg.require_deposit = false)
    (u : User) (hu : u.step = UserStep.registered) (d : Int) :
    finalStep (replayEv false m c [Ev.reg a]) = some UserStep.deposited ∧
    miniapp_access (replayEv false m c [Ev.reg a]) 1 (pyInt c) = true ∧
    (render_get cfg u d true).screen = Screen.unlocked ∧
    ((render_get cfg u d true).user).step = UserStep.deposited := by
  have h1 := replay_canon false m c hc [Ev.reg a] (by simp)
  have hfold : foldEv false m [Ev.reg a] = (some UserStep.deposited, 0) := rfl
  have hsub : (cfg.require_subscription && !true) = false := by simp
  have hacc : (u.step == UserStep.deposited ||
      (!cfg.require_deposit && stepGeRegistered u.step)) = true := by
    rw [hu, hrd]
    decide
  have hupd : (u.step != UserStep.deposited && !cfg.require_deposit) = true := by
    rw [hu, hrd]
    decide
  have hrr : render_get cfg u d true
      = { screen := Screen.unlocked, vipFired := false
        , user := { u with step := UserStep.deposited } } := by
    unfold render_get
    rw [if_neg (by rw [hsub]; exact Bool.false_ne_true), if_pos hacc]
    simp [hupd]
  refine ⟨?_, ?_, ?_, ?_⟩
  · rw [h1, finalStep_canon, hfold]
  · rw [h1]
    unfold miniapp_access
    rw [show (canonDB false m c [Ev.reg a]).users
        = [canonUser c UserStep.deposited] from by simp [canonDB, hfold]]
    rw [List.find?_cons_of_pos _ (by simp [canonUser])]
    rfl
  · rw [hrr]
  · rw [hrr]

/-- C8, witness at a concrete tenant and user. -/
theorem C8_registered_access_witness :
    finalStep (replayEv false 50 "7" [Ev.reg 0]) = some UserStep.deposited ∧
    miniapp_access (replayEv false 50 "7" [Ev.reg 0]) 1 (pyInt "7") = true ∧
    (render_get (cfg0 false 50) (canonUser "7" UserStep.registered) 0
      true).screen = Screen.unlocked ∧
    ((render_get (cfg0 false 50) (canonUser "7" UserStep.registered) 0
      true).user).step = UserStep.deposited :=
  C8_registered_access 50 "7" (by decide) 0 (cfg0 false 50) rfl
    (canonUser "7" UserStep.registered) rfl 0

/-- A deposit request carrying no `click_id` (matched via trader id). -/
def pNoClick : PbParams :=
  { tenant_id := 1, event := some "deposit", t := some "sek"
  , click_id := none, trader_id := some "tr9", sum := 100 }

/-- C9: the accumulated-deposit total used against `min_deposit` only
counts verified deposit rows whose stored `click_id` equals the incoming
`str(click_id)`: a row under a different (or missing) click id leaves the
total unchanged, a matching verified deposit row adds its amount, and a
verified deposit of 100 arriving without `click_id` leaves its own user
at `asked_deposit` (threshold 50) because even that event itself is not
counted under the `str(None)` key. -/
theorem C9_click_keyed_total (db : DB) (tid : Int) (s : String)
    (pb pbm : Postback) (hpb : pb.click_id ≠ some s)
    (h1 : pbm.tenant_id = tid) (h2 : pbm.event = "deposit")
    (h3 : pbm.click_id = some s) (h4 : pbm.token_ok = true) :
    depTotal { db with postbacks := db.postbacks ++ [pb] } tid s
      = depTotal db tid s ∧
    depTotal { db with postbacks := db.postbacks ++ [pbm] } tid s
      = depTotal db tid s + pbm.sum ∧
    finalStep (replay ST (db0 true 50) [pNoClick])
      = some UserStep.asked_deposit := by
  refine ⟨?_, ?_, by decide⟩
  · unfold depTotal
    show ((List.filter _ (db.postbacks ++ [pb])).map _).sum = _
    rw [List.filter_append]
    have hp : depPred tid s pb = false := by simp [depPred, hpb]
    simp [hp]
  · unfold depTotal
    show ((List.filter _ (db.postbacks ++ [pbm])).map _).sum = _
    rw [List.filter_append]
    have hp : depPred tid s pbm = true := by simp [depPred, h1, h2, h3, h4]
    simp [hp]

/-- C9, witness at concrete rows. -/
theorem C9_click_keyed_total_witness :
    depTotal { db0 true 50 with postbacks := (db0 true 50).postbacks ++
        [mkRow 1 "deposit" (some "8") none 40 true] } 1 "7"
      = depTotal (db0 true 50) 1 "7" ∧
    depTotal { db0 true 50 with postbacks := (db0 true 50).postbacks ++
        [mkRow 1 "deposit" (some "7") none 40 true] } 1 "7"
      = depTotal (db0 true 50) 1 "7"
        + (mkRow 1 "deposit" (some "7") none 40 true).sum ∧
    finalStep (replay ST (db0 true 50) [pNoClick])
      = some UserStep.asked_deposit :=
  C9_click_keyed_total (db0 true 50) 1 "7"
    (mkRow 1 "deposit" (some "8") none 40 true)
    (mkRow 1 "deposit" (some "7") none 40 true)
    (by decide) rfl rfl rfl rfl

/-- C10: with per-tenant secret mode enabled and an empty stored secret,
every ingestion request for that tenant is rejected as forbidden — there
is no fallback to the global secret, whatever token is supplied — and the
event is recorded unverified. -/
theorem C10_empty_secret_rejects (st : Settings) (db : DB) (p : PbParams)
    (t : Tenant) (hmode : st.tenant_secret_mode = "enabled")
    (hten : findTenant db p.tenant_id = some t)
    (hsec : t.postback_secret = "") :
    handle_postback st db p = (PbResult.forbidden,
      { db with postbacks := db.postbacks ++
          [mkRow p.tenant_id (norm_event p.event) p.click_id p.trader_id
            p.sum false] }) := by
  have htok : tokenOk st t p.t = false := by
    simp [tokenOk, hmode, hsec]
    intro h
    exact absurd h (by decide)
  exact hp_forbidden_shape st db p t hten htok

/-- A tenant whose stored postback secret is empty. -/
def TEmpty : Tenant :=
  { id := 9, owner_tg_id := 1, status := TenantStatus.active
  , postback_secret := "" }

/-- Store holding only the empty-secret tenant. -/
def dbEmpty : DB :=
  { tenants := [TEmpty], configs := [], users := [], postbacks := [] }

/-- C10, witness: even the global secret itself is rejected. -/
theorem C10_empty_secret_rejects_witness :
    handle_postback ST dbEmpty
      { tenant_id := 9, event := some "deposit", t := some "g"
      , click_id := some "7", trader_id := none, sum := 10 }
      = (PbResult.forbidden,
        { dbEmpty with postbacks := dbEmpty.postbacks ++
            [mkRow 9 (norm_event (some "deposit")) (some "7") none
              10 false] }) :=
  C10_empty_secret_rejects ST dbEmpty
    { tenant_id := 9, event := some "deposit", t := some "g"
    , click_id := some "7", trader_id := none, sum := 10 } TEmpty
    rfl (by decide) rfl

end Pocket
